import Mathlib

/-!
A shallow embedding of the estimationtools plugin (burndownchart.py,
workloadchart.py) and proofs about its timetable-reconstruction,
scaling and workload-summing code.

Modelling conventions:
* Python `Decimal` values are modelled by `ℚ` (exact decimal arithmetic;
  `Decimal` division is correctly rounded to 28 significant digits, which
  agrees with exact rational division on all quantities appearing here).
* Calendar dates are day numbers (`Nat`, days since the epoch);
  `from_utimestamp(t).date()` for a nonnegative microsecond timestamp `t`
  is `t / 86400000000`.
* Python `dict` objects keyed by dates or owner names are association
  lists where an insertion prepends and `lookupA` returns the first
  (i.e. most recent) binding, so an insertion shadows earlier bindings
  exactly like a `dict` assignment overwrites.
* `timetable[d] += v` is `timetableAdd`, which fails (`none`, the model
  of a Python `KeyError`) when the key is absent; adding a `None` carried
  estimate (a Python `TypeError`) is also modelled as `none`.
-/

/-- First-match lookup in an association list: the model of `dict[k]`
(with `none` for a missing key / `dict.get`). -/
def lookupA {κ α : Type} [DecidableEq κ] (k : κ) : List (κ × α) → Option α
  | [] => none
  | (k', v) :: rest => if k' = k then some v else lookupA k rest

/-- `dict[k] = v` on a history map: prepend, shadowing earlier bindings. -/
def insertA {κ α : Type} (k : κ) (v : α) (m : List (κ × α)) : List (κ × α) :=
  (k, v) :: m

/-- `timetable[d] += v`: update the (unique) binding of `d` in place;
`none` models the `KeyError` raised when `d` is not a key. -/
def timetableAdd (d : Nat) (v : ℚ) : List (Nat × ℚ) → Option (List (Nat × ℚ))
  | [] => none
  | (k, w) :: rest =>
    if k = d then some ((k, w + v) :: rest)
    else (timetableAdd d v rest).map (fun tt => (k, w) :: tt)

/-- Microseconds per day; Trac timestamps are microseconds since the epoch. -/
def usPerDay : Nat := 86400000000

/-- `from_utimestamp(t).date()` as a day number (UTC, nonnegative times). -/
def dayOfTime (t : Nat) : Nat := t / usPerDay

/-- The shape of a finite decimal literal accepted by the `Decimal`
constructor: sign, integer part, fractional digits (value and count)
and exponent. -/
structure DecLit where
  negative : Bool
  intPart : Nat
  fracPart : Nat
  fracDigits : Nat
  exp : Int
deriving DecidableEq

/-- Numeric value of a list of decimal digit characters. -/
def digitsToNat (cs : List Char) : Nat :=
  cs.foldl (fun a c => a * 10 + (c.toNat - 48)) 0

/-- Scan an unsigned decimal mantissa `digits [. digits]` (at least one
digit in total) into (integer part, fraction value, fraction length);
`none` on any other shape. -/
def scanMantissa (cs : List Char) : Option (Nat × Nat × Nat) :=
  let ip := cs.takeWhile (fun c => c != '.')
  let rest := cs.dropWhile (fun c => c != '.')
  match rest with
  | [] =>
    if ip ≠ [] ∧ ip.all Char.isDigit then some (digitsToNat ip, 0, 0) else none
  | _ :: fp =>
    if (ip ++ fp) ≠ [] ∧ ip.all Char.isDigit ∧ fp.all Char.isDigit then
      some (digitsToNat ip, digitsToNat fp, fp.length)
    else none

/-- Scan an optionally signed run of digits, as the exponent part of a
decimal literal. -/
def scanExp (cs : List Char) : Option Int :=
  match cs with
  | '-' :: rest =>
    if rest ≠ [] ∧ rest.all Char.isDigit then some (-(digitsToNat rest : Int))
    else none
  | '+' :: rest =>
    if rest ≠ [] ∧ rest.all Char.isDigit then some ((digitsToNat rest : Int))
    else none
  | _ =>
    if cs ≠ [] ∧ cs.all Char.isDigit then some ((digitsToNat cs : Int))
    else none

/-- Scan a string accepted by the `Decimal` constructor (finite
literals; the special values NaN/Infinity and surrounding whitespace do
not occur in this plugin's data); `none` when the constructor raises. -/
def scanDecimal (s : String) : Option DecLit :=
  let cs := s.data
  let neg : Bool := match cs with
    | '-' :: _ => true
    | _ => false
  let cs' := match cs with
    | '-' :: rest => rest
    | '+' :: rest => rest
    | _ => cs
  let mant := cs'.takeWhile (fun c => c != 'e' && c != 'E')
  let erest := cs'.dropWhile (fun c => c != 'e' && c != 'E')
  match erest with
  | [] => (scanMantissa mant).map (fun m => ⟨neg, m.1, m.2.1, m.2.2, 0⟩)
  | _ :: etail =>
    match scanMantissa mant, scanExp etail with
    | some m, some e => some ⟨neg, m.1, m.2.1, m.2.2, e⟩
    | _, _ => none

/-- The rational value of a decimal literal. -/
def decLitVal (l : DecLit) : ℚ :=
  (if l.negative then (-1 : ℚ) else 1) *
    ((l.intPart : ℚ) + (l.fracPart : ℚ) / (10 : ℚ) ^ l.fracDigits) *
    (10 : ℚ) ^ l.exp

/-- The numeric value of a string accepted by the `Decimal` constructor,
or `none` when the constructor raises. -/
def parseDecimal (s : String) : Option ℚ := (scanDecimal s).map decLitVal

/-- `BurndownChart._cast_estimate`: `0`, the empty string or `None` map
to `Decimal 0`; a string that fails to parse as a number maps to the
distinguished `none` ("unknown"). -/
def castEstimate (estimate : Option String) : Option ℚ :=
  match estimate with
  | none => some 0
  | some s => if s = "" then some 0 else parseDecimal s

/-- One row of the `ticket_change` table as returned by the history
query: field name (the tracked field or `"status"`), microsecond
timestamp, old and new value. The query orders rows ascending by time. -/
structure ChangeRow where
  field : String
  time : Nat
  oldvalue : String
  newvalue : String
deriving DecidableEq

/-- A ticket snapshot as returned by `execute_query`: creation
timestamp (`t['time']`), current status, current value of the tracked
field (`t[field]`, `none` for SQL NULL), and its change log. -/
structure Ticket where
  time : Nat
  status : String
  value : Option String
  changeLog : List ChangeRow
deriving DecidableEq

/-- The state built while walking a ticket's change log: per-day history
maps for the tracked field and for status, and the earliest old
value/status seen. -/
structure HistState where
  estimateHistory : List (Nat × ℚ)
  statusHistory : List (Nat × String)
  earliestEstimate : Option ℚ
  earliestStatus : Option String
deriving DecidableEq

/-- Processing of one change row in `_calculate_timetable`'s history
loop: a tracked-field row whose new value casts to a number overwrites
that day's estimate entry (an uncastable one is skipped), a status row
overwrites that day's status entry, and the first castable old value /
first old status become the "earliest" values. -/
def buildStep (field : String) (st : HistState) (row : ChangeRow) : HistState :=
  let eventDate := dayOfTime row.time
  if row.field = field then
    { st with
      estimateHistory :=
        match castEstimate (some row.newvalue) with
        | some v => insertA eventDate v st.estimateHistory
        | none => st.estimateHistory,
      earliestEstimate :=
        match st.earliestEstimate with
        | some e => some e
        | none => castEstimate (some row.oldvalue) }
  else if row.field = "status" then
    { st with
      statusHistory := insertA eventDate row.newvalue st.statusHistory,
      earliestStatus :=
        match st.earliestStatus with
        | some s => some s
        | none => some row.oldvalue }
  else st

/-- The full history-building loop over a ticket's change rows. -/
def buildHistories (field : String) (rows : List ChangeRow) : HistState :=
  rows.foldl (buildStep field) ⟨[], [], none, none⟩

/-- The estimate history after the day-zero seeding: when the creation
date has no entry, it is seeded with the earliest recorded old value,
falling back to the cast of the ticket's current value (`Decimal 0`
when that cast fails). -/
def seededEstimateHistory (field : String) (t : Ticket) : List (Nat × ℚ) :=
  let creationDate := dayOfTime t.time
  let latestEstimate := (castEstimate t.value).getD 0
  let hs := buildHistories field t.changeLog
  if (lookupA creationDate hs.estimateHistory).isSome then hs.estimateHistory
  else insertA creationDate (hs.earliestEstimate.getD latestEstimate)
         hs.estimateHistory

/-- The status history after the day-zero seeding: when the creation
date has no entry, it is seeded with the earliest recorded old status,
falling back to the ticket's current status. -/
def seededStatusHistory (field : String) (t : Ticket) : List (Nat × String) :=
  let creationDate := dayOfTime t.time
  let hs := buildHistories field t.changeLog
  if (lookupA creationDate hs.statusHistory).isSome then hs.statusHistory
  else insertA creationDate (hs.earliestStatus.getD t.status) hs.statusHistory

/-- Body of the timetable-seeding `while` loop, driven by the fuel
`enddate + 1 - current_date` (so fuel `0` is exactly the exit condition
`current_date > enddate`). -/
def initTimetableAux : Nat → Nat → List (Nat × ℚ)
  | 0, _ => []
  | fuel+1, d => (d, (0 : ℚ)) :: initTimetableAux fuel (d + 1)

/-- The dictionary with one `Decimal 0` entry per day of
`[startdate, enddate]`, as built by the seeding loop at the top of both
`_calculate_timetable` and `_calculate_timetable_spent`. -/
def initTimetable (startdate enddate : Nat) : List (Nat × ℚ) :=
  initTimetableAux (enddate + 1 - startdate) startdate

/-- `if current_date in status_history: is_open = (status_history[...]
not in closed_states)`: the per-day update of the carried open flag. -/
def stepStatus (sh : List (Nat × String)) (closed : List String) (d : Nat)
    (isOpen : Option Bool) : Option Bool :=
  match lookupA d sh with
  | some s => some (decide (s ∉ closed))
  | none => isOpen

/-- `if current_date in estimate_history: current_estimate =
estimate_history[current_date]`: the per-day update of the carried
estimate. -/
def stepEstimate (eh : List (Nat × ℚ)) (d : Nat) (est : Option ℚ) :
    Option ℚ :=
  match lookupA d eh with
  | some v => some v
  | none => est

/-- The per-ticket reconstruction loop of `_calculate_timetable`
(remaining effort): walk days from the creation date to `enddate`,
carrying the current estimate and open flag, and add the estimate to the
timetable on window days on which the ticket is open.  Fuel is
`enddate + 1 - d`.  A missing timetable key or a `None` carried
estimate at an add makes the whole loop `none`. -/
def remainingLoopAux (eh : List (Nat × ℚ)) (sh : List (Nat × String))
    (closed : List String) (startdate : Nat) :
    Nat → Nat → Option ℚ → Option Bool → List (Nat × ℚ) →
      Option (List (Nat × ℚ))
  | 0, _, _, _, tt => some tt
  | fuel+1, d, est, isOpen, tt =>
    let isOpen' := stepStatus sh closed d isOpen
    let est' := stepEstimate eh d est
    let step : Option (List (Nat × ℚ)) :=
      if startdate ≤ d ∧ isOpen' = some true then
        match est' with
        | some v => timetableAdd d v tt
        | none => none
      else some tt
    match step with
    | none => none
    | some tt' =>
      remainingLoopAux eh sh closed startdate fuel (d + 1) est' isOpen' tt'

/-- The per-ticket reconstruction loop of `_calculate_timetable_spent`:
as `remainingLoopAux` but the carried value is added on every window
day, with no open/closed condition. -/
def spentLoopAux (eh : List (Nat × ℚ)) (startdate : Nat) :
    Nat → Nat → Option ℚ → List (Nat × ℚ) → Option (List (Nat × ℚ))
  | 0, _, _, tt => some tt
  | fuel+1, d, est, tt =>
    let est' := stepEstimate eh d est
    let step : Option (List (Nat × ℚ)) :=
      if startdate ≤ d then
        match est' with
        | some v => timetableAdd d v tt
        | none => none
      else some tt
    match step with
    | none => none
    | some tt' => spentLoopAux eh startdate fuel (d + 1) est' tt'

/-- The whole per-ticket body of `_calculate_timetable`: build and seed
the histories, then run the reconstruction loop from the creation date
with carried estimate and open flag both `None`. -/
def processTicketRemaining (field : String) (closed : List String)
    (startdate enddate : Nat) (tt : List (Nat × ℚ)) (t : Ticket) :
    Option (List (Nat × ℚ)) :=
  let creationDate := dayOfTime t.time
  remainingLoopAux (seededEstimateHistory field t) (seededStatusHistory field t)
    closed startdate (enddate + 1 - creationDate) creationDate none none tt

/-- The whole per-ticket body of `_calculate_timetable_spent`.  (The
source also builds and seeds a status history here, but the spent loop
never reads it.) -/
def processTicketSpent (field : String) (startdate enddate : Nat)
    (tt : List (Nat × ℚ)) (t : Ticket) : Option (List (Nat × ℚ)) :=
  let creationDate := dayOfTime t.time
  spentLoopAux (seededEstimateHistory field t) startdate
    (enddate + 1 - creationDate) creationDate none tt

/-- `BurndownChart._calculate_timetable`: seed the window to zero, then
fold every ticket's contribution in. -/
def calculateTimetable (field : String) (closed : List String)
    (startdate enddate : Nat) (tickets : List Ticket) :
    Option (List (Nat × ℚ)) :=
  tickets.foldlM (processTicketRemaining field closed startdate enddate)
    (initTimetable startdate enddate)

/-- `BurndownChart._calculate_timetable_spent`. -/
def calculateTimetableSpent (field : String) (startdate enddate : Nat)
    (tickets : List Ticket) : Option (List (Nat × ℚ)) :=
  tickets.foldlM (processTicketSpent field startdate enddate)
    (initTimetable startdate enddate)

/-- `BurndownChart._round`: quantize to two decimal places with
ROUND_HALF_UP (ties rounded away from zero). -/
def roundHalfUp2 (q : ℚ) : ℚ :=
  if q < 0 then -((⌊-q * 100 + 1/2⌋ : ℚ) / 100)
  else ((⌊q * 100 + 1/2⌋ : ℚ) / 100)

/-- Result of `_scale_data`: the x and y coordinate lists (the rational
values behind the emitted strings; the sentinel string `'-1'` is the
value `-1`) and the scaling peak. -/
structure ScaleResult where
  xdata : List ℚ
  ydata : List ℚ
  maxhours : ℚ
deriving DecidableEq

/-- `BurndownChart._scale_data`.  `today` is `options['today']` as a day
number and `expected` the already-parsed `int(options['expected'])`.
Keys are visited in sorted order; each y value is the rounded percentage
of the peak; y values of days strictly after `today` are replaced by the
sentinel `-1`.  On a single-entry timetable the xdata comprehension
divides `Decimal(0)` by `len(dates) - 1 = 0`, so the call raises
`InvalidOperation` (after computing ydata, before the masking step);
that error path is `none`.  With an empty timetable both comprehensions
are empty, no division is executed, and the call returns empty series. -/
def scaleData (timetable : List (Nat × ℚ)) (today : Nat) (expected : Int) :
    Option ScaleResult :=
  let dates := List.insertionSort (· ≤ ·) (timetable.map Prod.fst)
  let m0 : ℚ := (timetable.map Prod.snd).foldl max ((expected : ℚ))
  let maxhours : ℚ := if m0 ≤ 0 then 100 else m0
  let ydata := dates.map
    (fun d => roundHalfUp2 (((lookupA d timetable).getD 0) * 100 / maxhours))
  if dates.length = 1 then none
  else
    let xdata := (List.range dates.length).map
      (fun i => roundHalfUp2 ((i : ℚ) * 100 / ((dates.length : ℚ) - 1)))
    let remainingDays := (dates.filter (fun d => decide (today < d))).length
    let ydata' := if remainingDays ≠ 0 then
        ydata.take (ydata.length - remainingDays) ++
          List.replicate remainingDays (-1 : ℚ)
      else ydata
    some ⟨xdata, ydata', maxhours⟩

/-- A ticket as consumed by `WorkloadChart.expand_macro`: current
status, owner, and current value of the remaining field. -/
structure WTicket where
  status : String
  owner : String
  value : Option String
deriving DecidableEq

/-- `float(ticket[field])` under the workload loop's bare `except`:
`none` models the swallowed exception (a `None` field value or an
unparseable string).  Binary floating point is modelled by exact
rationals; the claims below are about which tickets enter the sums. -/
def parseFloatVal (v : Option String) : Option ℚ :=
  match v with
  | none => none
  | some s => parseDecimal s

/-- `estimations[owner] += estimation` / `estimations[owner] =
estimation` on the per-owner dictionary. -/
def ownerAdd (owner : String) (e : ℚ) :
    List (String × ℚ) → List (String × ℚ)
  | [] => [(owner, e)]
  | (o, v) :: rest =>
    if o = owner then (o, v + e) :: rest else (o, v) :: ownerAdd owner e rest

/-- One iteration of the `WorkloadChart.expand_macro` ticket loop:
closed tickets are skipped, an unparseable remaining value is swallowed
by the bare `except`, and otherwise the estimation is added to the
running total and to the owner's entry. -/
def workloadStep (closed : List String) (acc : ℚ × List (String × ℚ))
    (t : WTicket) : ℚ × List (String × ℚ) :=
  if t.status ∈ closed then acc
  else
    match parseFloatVal t.value with
    | none => acc
    | some estimation => (acc.1 + estimation, ownerAdd t.owner estimation acc.2)

/-- The total remaining sum and per-owner sums of
`WorkloadChart.expand_macro`. -/
def workloadSums (closed : List String) (tickets : List WTicket) :
    ℚ × List (String × ℚ) :=
  tickets.foldl (workloadStep closed) (0, [])

/-- The carried value after processing the entries of `hist` for days
`d, d+1, …, d+n-1` in increasing order (forward fill), starting from
`e`. -/
def applyDays {α : Type} (hist : List (Nat × α)) (e : α) (d : Nat) :
    Nat → α
  | 0 => e
  | n+1 =>
    match lookupA (d + n) hist with
    | some v => v
    | none => applyDays hist e d n

/-- The reconstructed ("carried") estimate of a ticket on day `x`:
forward fill of the seeded estimate history from the creation date.
(Meaningful for `x ≥` the creation date; the initial `0` is then never
used, because the seeded history always has a creation-day entry.) -/
def ticketEstimateAt (field : String) (t : Ticket) (x : Nat) : ℚ :=
  let creation := dayOfTime t.time
  applyDays (seededEstimateHistory field t) 0 creation (x + 1 - creation)

/-- The per-day status history mapped to open flags. -/
def mapOpen (closed : List String) (sh : List (Nat × String)) :
    List (Nat × Bool) :=
  sh.map (fun p => (p.1, decide (p.2 ∉ closed)))

/-- Whether a ticket counts as open on day `x`: forward fill of the
seeded status history from the creation date (`false` before the
creation date, where the loop's carried flag is still `None`). -/
def ticketOpenAt (field : String) (closed : List String) (t : Ticket)
    (x : Nat) : Bool :=
  let creation := dayOfTime t.time
  applyDays (mapOpen closed (seededStatusHistory field t)) false creation
    (x + 1 - creation)

lemma castEstimate_of_scan (s : String) (l : DecLit)
    (h : scanDecimal s = some l) (hne : s ≠ "") :
    castEstimate (some s) = some (decLitVal l) := by
  rw [castEstimate, if_neg hne, parseDecimal, h]
  rfl

lemma castEstimate_of_scan_none (s : String)
    (h : scanDecimal s = none) (hne : s ≠ "") :
    castEstimate (some s) = none := by
  rw [castEstimate, if_neg hne, parseDecimal, h]
  rfl

lemma cast_ten : castEstimate (some "10") = some 10 := by
  rw [castEstimate_of_scan "10" ⟨false, 10, 0, 0, 0⟩ (by decide) (by decide)]
  norm_num [decLitVal]

lemma cast_four : castEstimate (some "4") = some 4 := by
  rw [castEstimate_of_scan "4" ⟨false, 4, 0, 0, 0⟩ (by decide) (by decide)]
  norm_num [decLitVal]

lemma cast_five : castEstimate (some "5") = some 5 := by
  rw [castEstimate_of_scan "5" ⟨false, 5, 0, 0, 0⟩ (by decide) (by decide)]
  norm_num [decLitVal]

/-- The C1 ticket: created 2008-01-01 (day 13879 since the epoch),
current tracked-field value `"10"`, one change row on 2008-01-03
(day 13881) from `"10"` to `"4"`, status `"new"` throughout. -/
def c1ticket : Ticket :=
  { time := 13879 * usPerDay
    status := "new"
    value := some "10"
    changeLog := [⟨"estimatedhours", 13881 * usPerDay + 3600000000, "10", "4"⟩] }

/-- C1: reconstruction with seeding and forward fill.  For the ticket
created 2008-01-01 with current value "10" and a single change
(2008-01-03, "10" → "4"), open throughout, the remaining-effort
timetable over 2008-01-01..2008-01-05 (days 13879..13883) maps the
creation day and the following day to 10 (seeded from the earliest old
value) and 2008-01-03 onwards to the forward-filled 4. -/
theorem c1_seeding_and_forward_fill :
    calculateTimetable "estimatedhours" ["closed"] 13879 13883 [c1ticket] =
      some [(13879, 10), (13880, 10), (13881, 4), (13882, 4), (13883, 4)] := by
  have hbh : buildHistories "estimatedhours" c1ticket.changeLog =
      ⟨[(13881, 4)], [], some 10, none⟩ := by
    simp only [buildHistories, List.foldl, buildStep, c1ticket]
    norm_num [cast_ten, cast_four, dayOfTime, usPerDay, insertA]
  have heh : seededEstimateHistory "estimatedhours" c1ticket =
      [(13879, 10), (13881, 4)] := by
    rw [seededEstimateHistory, hbh]
    norm_num [c1ticket, cast_ten, dayOfTime, usPerDay, lookupA, insertA]
  have hsh : seededStatusHistory "estimatedhours" c1ticket =
      [(13879, "new")] := by
    rw [seededStatusHistory, hbh]
    norm_num [c1ticket, dayOfTime, usPerDay, lookupA, insertA]
  rw [calculateTimetable, List.foldlM, processTicketRemaining, heh, hsh]
  norm_num [c1ticket, dayOfTime, usPerDay, initTimetable, initTimetableAux,
    remainingLoopAux, stepStatus, stepEstimate, lookupA, timetableAdd,
    eq_false (show ¬ (("new" : String) ∈ ["closed"]) from by decide),
    eq_false (show ¬ (("new" : String) = "closed") from by decide)]

/-! ### Generic lemmas about the dictionary model -/

lemma lookupA_map_snd {κ α β : Type} [DecidableEq κ] (f : α → β) (k : κ) :
    ∀ m : List (κ × α),
      lookupA k (m.map (fun p => (p.1, f p.2))) = (lookupA k m).map f
  | [] => rfl
  | (k', v) :: rest => by
    by_cases h : k' = k <;> simp [lookupA, h, lookupA_map_snd f k rest]

lemma lookupA_insertA_self {κ α : Type} [DecidableEq κ] (k : κ) (v : α)
    (m : List (κ × α)) : lookupA k (insertA k v m) = some v := by
  simp [insertA, lookupA]

lemma lookupA_insertA_ne {κ α : Type} [DecidableEq κ] (k k' : κ) (v : α)
    (m : List (κ × α)) (h : k ≠ k') :
    lookupA k' (insertA k v m) = lookupA k' m := by
  simp [insertA, lookupA, h]

lemma lookupA_isSome_iff {κ α : Type} [DecidableEq κ] (k : κ) :
    ∀ m : List (κ × α), (lookupA k m).isSome = true ↔ k ∈ m.map Prod.fst
  | [] => by simp [lookupA]
  | (k', v) :: rest => by
    by_cases h : k' = k
    · subst h; simp [lookupA]
    · simp only [lookupA, if_neg h, List.map_cons, List.mem_cons]
      rw [lookupA_isSome_iff k rest]
      constructor
      · exact Or.inr
      · rintro (h' | h')
        · exact absurd h'.symm h
        · exact h'

lemma timetableAdd_lookup (d : Nat) (v : ℚ) :
    ∀ tt tt', timetableAdd d v tt = some tt' →
      ∀ x, lookupA x tt' =
        if x = d then (lookupA x tt).map (fun w => w + v) else lookupA x tt
  | [], _, h => by simp [timetableAdd] at h
  | (k, w) :: rest, tt', h => by
    intro x
    by_cases hk : k = d
    · subst hk
      rw [timetableAdd, if_pos rfl, Option.some.injEq] at h
      subst h
      by_cases hx : x = k
      · subst hx; simp [lookupA]
      · have hkx : ¬ k = x := fun hc => hx hc.symm
        simp [lookupA, hx, hkx]
    · rw [timetableAdd, if_neg hk] at h
      cases hrec : timetableAdd d v rest with
      | none => rw [hrec] at h; simp at h
      | some rest' =>
        rw [hrec, Option.map_some', Option.some.injEq] at h
        subst h
        have hr := timetableAdd_lookup d v rest rest' hrec x
        by_cases hx : x = d
        · subst hx
          have hkx : ¬ k = x := hk
          simp [lookupA, hkx, hr]
        · by_cases hkx : k = x
          · subst hkx
            simp [lookupA, hx]
          · simp [lookupA, hkx, hr, hx]

lemma timetableAdd_isSome (d : Nat) (v : ℚ) :
    ∀ tt, (lookupA d tt).isSome = true → ∃ tt', timetableAdd d v tt = some tt'
  | [], h => by simp [lookupA] at h
  | (k, w) :: rest, h => by
    by_cases hk : k = d
    · exact ⟨(k, w + v) :: rest, by rw [timetableAdd, if_pos hk]⟩
    · rw [lookupA, if_neg hk] at h
      obtain ⟨rest', hrest⟩ := timetableAdd_isSome d v rest h
      exact ⟨(k, w) :: rest', by rw [timetableAdd, if_neg hk, hrest]; rfl⟩

lemma timetableAdd_keys (d : Nat) (v : ℚ) :
    ∀ tt tt', timetableAdd d v tt = some tt' →
      tt'.map Prod.fst = tt.map Prod.fst
  | [], _, h => by simp [timetableAdd] at h
  | (k, w) :: rest, tt', h => by
    by_cases hk : k = d
    · subst hk
      rw [timetableAdd, if_pos rfl, Option.some.injEq] at h
      subst h; rfl
    · rw [timetableAdd, if_neg hk] at h
      cases hrec : timetableAdd d v rest with
      | none => rw [hrec] at h; simp at h
      | some rest' =>
        rw [hrec, Option.map_some', Option.some.injEq] at h
        subst h
        simp [timetableAdd_keys d v rest rest' hrec]

/-! ### Lemmas about the seeded window timetable -/

lemma lookupA_initTimetableAux :
    ∀ fuel d x, lookupA x (initTimetableAux fuel d) =
      if d ≤ x ∧ x < d + fuel then some 0 else none
  | 0, d, x => by
    rw [if_neg (by omega : ¬ (d ≤ x ∧ x < d + 0))]
    rfl
  | fuel+1, d, x => by
    rw [initTimetableAux]
    by_cases h : d = x
    · subst h
      rw [if_pos ⟨Nat.le_refl d, by omega⟩]
      simp [lookupA]
    · simp only [lookupA, if_neg h, lookupA_initTimetableAux fuel (d+1) x]
      have : (d + 1 ≤ x ∧ x < d + 1 + fuel) ↔ (d ≤ x ∧ x < d + (fuel + 1)) := by
        omega
      simp [this]

lemma lookupA_initTimetable (s e x : Nat) :
    lookupA x (initTimetable s e) = if s ≤ x ∧ x ≤ e then some 0 else none := by
  rw [initTimetable, lookupA_initTimetableAux]
  by_cases h : s ≤ x ∧ x ≤ e
  · rw [if_pos ⟨h.1, by omega⟩, if_pos h]
  · rw [if_neg (by omega), if_neg h]

lemma initTimetableAux_length : ∀ fuel d, (initTimetableAux fuel d).length = fuel
  | 0, _ => rfl
  | fuel+1, d => by
    simp [initTimetableAux, initTimetableAux_length fuel (d+1)]

lemma initTimetableAux_keys :
    ∀ fuel d, (initTimetableAux fuel d).map Prod.fst = List.range' d fuel
  | 0, _ => rfl
  | fuel+1, d => by
    rw [initTimetableAux, List.range'_succ]
    simp [initTimetableAux_keys fuel (d+1)]

lemma initTimetableAux_values :
    ∀ fuel d, ∀ p ∈ initTimetableAux fuel d, p.2 = (0 : ℚ)
  | 0, _ => by simp [initTimetableAux]
  | fuel+1, d => by
    simp only [initTimetableAux, List.mem_cons]
    rintro p (rfl | hp)
    · rfl
    · exact initTimetableAux_values fuel (d+1) p hp

/-! ### Forward-fill lemmas -/

/-- One forward-fill step: the history's entry for day `d` if present,
else the carried value. -/
def applyDay1 {α : Type} (hist : List (Nat × α)) (e : α) (d : Nat) : α :=
  match lookupA d hist with
  | some v => v
  | none => e

lemma applyDays_one {α : Type} (hist : List (Nat × α)) (e : α) (d : Nat) :
    applyDays hist e d 1 = applyDay1 hist e d := rfl

lemma applyDays_succ_left {α : Type} (hist : List (Nat × α)) (e : α)
    (d : Nat) : ∀ n,
    applyDays hist e d (n + 1) = applyDays hist (applyDay1 hist e d) (d + 1) n
  | 0 => rfl
  | n+1 => by
    rw [applyDays, show d + (n + 1) = (d + 1) + n from by omega,
      applyDays_succ_left hist e d n]
    rw [applyDays]

lemma applyDays_eq_of_none {α : Type} (hist : List (Nat × α)) (e : α)
    (d : Nat) (m : Nat) :
    ∀ n, m ≤ n → (∀ k, m ≤ k → k < n → lookupA (d + k) hist = none) →
      applyDays hist e d n = applyDays hist e d m
  | 0, hmn, _ => by
    have : m = 0 := by omega
    rw [this]
  | n+1, hmn, h => by
    rcases Nat.eq_or_lt_of_le hmn with heq | hlt
    · rw [heq]
    · rw [applyDays, h n (by omega) (by omega)]
      exact applyDays_eq_of_none hist e d m n (by omega)
        (fun k hk1 hk2 => h k hk1 (by omega))

/-- Entries of a history lifted into the loop's `Option`-carried form. -/
def liftSome {α : Type} (hist : List (Nat × α)) : List (Nat × Option α) :=
  hist.map (fun p => (p.1, some p.2))

lemma lookupA_liftSome {α : Type} (k : Nat) (hist : List (Nat × α)) :
    lookupA k (liftSome hist) = (lookupA k hist).map some :=
  lookupA_map_snd some k hist

lemma applyDays_liftSome_eq {α : Type} (hist : List (Nat × α)) (e₀ : α)
    (eO : Option α) (d : Nat) (h : (lookupA d hist).isSome = true) :
    ∀ n, 1 ≤ n →
      applyDays (liftSome hist) eO d n = some (applyDays hist e₀ d n)
  | n+1, _ => by
    rw [applyDays, applyDays, lookupA_liftSome]
    cases hl : lookupA (d + n) hist with
    | some v => simp
    | none =>
      simp only [Option.map_none']
      rcases Nat.eq_zero_or_pos n with rfl | hn
      · rw [show d + 0 = d from rfl] at hl
        rw [hl] at h; simp at h
      · exact applyDays_liftSome_eq hist e₀ eO d h n hn

/-- The value carried at day `x` by a forward fill over `hist` that
starts at day `d` with value `e` (i.e. after processing days `d..x`). -/
def carriedAt {α : Type} (hist : List (Nat × α)) (e : α) (d x : Nat) : α :=
  applyDays hist e d (x + 1 - d)

lemma carriedAt_self {α : Type} (hist : List (Nat × α)) (e : α) (d : Nat) :
    carriedAt hist e d d = applyDay1 hist e d := by
  rw [carriedAt, show d + 1 - d = 1 from by omega, applyDays_one]

lemma carriedAt_shift {α : Type} (hist : List (Nat × α)) (e : α) (d x : Nat)
    (h : d ≤ x) :
    carriedAt hist e d x = carriedAt hist (applyDay1 hist e d) (d + 1) x := by
  rw [carriedAt, carriedAt, show x + 1 - d = (x + 1 - (d + 1)) + 1 from by omega,
    applyDays_succ_left]

/-- The loop's carried estimate at day `x`, starting at day `d` with
carried `Option` value `e`. -/
def estAtO (eh : List (Nat × ℚ)) (e : Option ℚ) (d x : Nat) : Option ℚ :=
  carriedAt (liftSome eh) e d x

/-- The loop's carried open flag at day `x`, starting at day `d` with
carried `Option` flag `s`. -/
def openAtO (sh : List (Nat × String)) (closed : List String)
    (s : Option Bool) (d x : Nat) : Option Bool :=
  carriedAt (liftSome (mapOpen closed sh)) s d x

lemma applyDay1_liftSome_est (eh : List (Nat × ℚ)) (e : Option ℚ) (d : Nat) :
    applyDay1 (liftSome eh) e d = stepEstimate eh d e := by
  rw [applyDay1, lookupA_liftSome, stepEstimate]
  cases lookupA d eh <;> rfl

lemma lookupA_mapOpen (closed : List String) (k : Nat)
    (sh : List (Nat × String)) :
    lookupA k (mapOpen closed sh) =
      (lookupA k sh).map (fun v => decide (v ∉ closed)) := by
  rw [mapOpen]
  exact lookupA_map_snd (fun v => decide (v ∉ closed)) k sh

lemma applyDay1_liftSome_status (sh : List (Nat × String))
    (closed : List String) (s : Option Bool) (d : Nat) :
    applyDay1 (liftSome (mapOpen closed sh)) s d = stepStatus sh closed d s := by
  rw [applyDay1, lookupA_liftSome, lookupA_mapOpen, stepStatus]
  cases lookupA d sh <;> rfl

lemma estAtO_self (eh : List (Nat × ℚ)) (e : Option ℚ) (d : Nat) :
    estAtO eh e d d = stepEstimate eh d e := by
  rw [estAtO, carriedAt_self, applyDay1_liftSome_est]

lemma estAtO_shift (eh : List (Nat × ℚ)) (e : Option ℚ) (d x : Nat)
    (h : d ≤ x) :
    estAtO eh e d x = estAtO eh (stepEstimate eh d e) (d + 1) x := by
  rw [estAtO, carriedAt_shift _ _ _ _ h, applyDay1_liftSome_est]
  rfl

lemma openAtO_self (sh : List (Nat × String)) (closed : List String)
    (s : Option Bool) (d : Nat) :
    openAtO sh closed s d d = stepStatus sh closed d s := by
  rw [openAtO, carriedAt_self, applyDay1_liftSome_status]

lemma openAtO_shift (sh : List (Nat × String)) (closed : List String)
    (s : Option Bool) (d x : Nat) (h : d ≤ x) :
    openAtO sh closed s d x =
      openAtO sh closed (stepStatus sh closed d s) (d + 1) x := by
  rw [openAtO, carriedAt_shift _ _ _ _ h, applyDay1_liftSome_status]
  rfl

lemma applyDays_liftSome_some {α : Type} (hist : List (Nat × α)) (a : α)
    (d : Nat) : ∀ n, (applyDays (liftSome hist) (some a) d n).isSome = true
  | 0 => rfl
  | n+1 => by
    rw [applyDays, lookupA_liftSome]
    cases hl : lookupA (d + n) hist with
    | some v => simp
    | none =>
      simp only [Option.map_none']
      exact applyDays_liftSome_some hist a d n

lemma estAtO_some_isSome (eh : List (Nat × ℚ)) (v : ℚ) (d x : Nat) :
    (estAtO eh (some v) d x).isSome = true :=
  applyDays_liftSome_some eh v d (x + 1 - d)

/-- Characterization of the remaining-effort reconstruction loop: under
a window-covering timetable and carried estimates that are known
whenever the ticket counts as open, the loop succeeds and adds, at every
day in `[max(d, start), endd]` on which the carried open flag is `some
true`, the carried estimate of that day. -/
lemma remainingLoopAux_char (eh : List (Nat × ℚ)) (sh : List (Nat × String))
    (closed : List String) (start endd : Nat) :
    ∀ fuel d (e : Option ℚ) (s : Option Bool) (tt : List (Nat × ℚ)),
      fuel = endd + 1 - d →
      (∀ x, start ≤ x → x ≤ endd → (lookupA x tt).isSome = true) →
      (∀ x, d ≤ x → x ≤ endd → start ≤ x →
        openAtO sh closed s d x = some true →
        (estAtO eh e d x).isSome = true) →
      ∃ tt', remainingLoopAux eh sh closed start fuel d e s tt = some tt' ∧
        ∀ x, lookupA x tt' =
          if d ≤ x ∧ x ≤ endd ∧ start ≤ x ∧
              openAtO sh closed s d x = some true then
            (lookupA x tt).map (fun w => w + (estAtO eh e d x).getD 0)
          else lookupA x tt
  | 0, d, e, s, tt, hfuel, htt, hok =>
    ⟨tt, rfl, fun x => (if_neg (fun hcon => by
      have h1 := hcon.1
      have h2 := hcon.2.1
      omega)).symm⟩
  | fuel+1, d, e, s, tt, hfuel, htt, hok => by
    have hde : d ≤ endd := by omega
    by_cases hc : start ≤ d ∧ stepStatus sh closed d s = some true
    · -- the ticket contributes on day d
      have hopen : openAtO sh closed s d d = some true := by
        rw [openAtO_self]; exact hc.2
      have hest : (estAtO eh e d d).isSome = true :=
        hok d (le_refl d) hde hc.1 hopen
      rw [estAtO_self] at hest
      obtain ⟨v, hv⟩ := Option.isSome_iff_exists.mp hest
      obtain ⟨tt1, htt1⟩ := timetableAdd_isSome d v tt (htt d hc.1 hde)
      have hlook := timetableAdd_lookup d v tt tt1 htt1
      have htt1' : ∀ x, start ≤ x → x ≤ endd →
          (lookupA x tt1).isSome = true := by
        intro x hx1 hx2
        rw [hlook x]
        by_cases hxd : x = d
        · rw [if_pos hxd]
          obtain ⟨w, hw⟩ := Option.isSome_iff_exists.mp (htt x hx1 hx2)
          rw [hw]
          rfl
        · rw [if_neg hxd]; exact htt x hx1 hx2
      obtain ⟨tt', hrun, hdesc⟩ :=
        remainingLoopAux_char eh sh closed start endd fuel (d+1)
          (some v) (stepStatus sh closed d s) tt1 (by omega) htt1'
          (fun x _ _ _ _ => estAtO_some_isSome eh v (d+1) x)
      refine ⟨tt', ?_, ?_⟩
      · simp only [remainingLoopAux, if_pos hc, hv, htt1]
        exact hrun
      · intro x
        rw [hdesc x]
        rcases Nat.lt_trichotomy x d with hxd | hxd | hxd
        · rw [if_neg (fun hcon => by have := hcon.1; omega),
            if_neg (fun hcon => by have := hcon.1; omega), hlook x,
            if_neg (by omega)]
        · rw [hxd]
          rw [if_neg (fun hcon => by have := hcon.1; omega), hlook d,
            if_pos rfl, if_pos ⟨le_refl d, hde, hc.1, hopen⟩, estAtO_self,
            hv]
          rfl
        · have hshift_o : openAtO sh closed (stepStatus sh closed d s)
              (d+1) x = openAtO sh closed s d x :=
            (openAtO_shift sh closed s d x (by omega)).symm
          have hshift_e : estAtO eh (some v) (d+1) x = estAtO eh e d x := by
            rw [← hv]
            exact (estAtO_shift eh e d x (by omega)).symm
          rw [hlook x, if_neg (show ¬ x = d from by omega), hshift_o,
            hshift_e]
          by_cases hcond : d ≤ x ∧ x ≤ endd ∧ start ≤ x ∧
              openAtO sh closed s d x = some true
          · rw [if_pos ⟨by omega, hcond.2⟩, if_pos hcond]
          · rw [if_neg (fun hcon => hcond ⟨by omega, hcon.2⟩), if_neg hcond]
    · -- no contribution on day d
      have hok' : ∀ x, d + 1 ≤ x → x ≤ endd → start ≤ x →
          openAtO sh closed (stepStatus sh closed d s) (d+1) x = some true →
          (estAtO eh (stepEstimate eh d e) (d+1) x).isSome = true := by
        intro x hx1 hx2 hx3 hx4
        rw [← estAtO_shift eh e d x (by omega)]
        refine hok x (by omega) hx2 hx3 ?_
        rw [openAtO_shift sh closed s d x (by omega)]
        exact hx4
      obtain ⟨tt', hrun, hdesc⟩ :=
        remainingLoopAux_char eh sh closed start endd fuel (d+1)
          (stepEstimate eh d e) (stepStatus sh closed d s) tt (by omega)
          htt hok'
      refine ⟨tt', ?_, ?_⟩
      · simp only [remainingLoopAux, if_neg hc]
        exact hrun
      · intro x
        rw [hdesc x]
        rcases Nat.lt_trichotomy x d with hxd | hxd | hxd
        · rw [if_neg (fun hcon => by have := hcon.1; omega),
            if_neg (fun hcon => by have := hcon.1; omega)]
        · rw [hxd]
          rw [if_neg (fun hcon => by have := hcon.1; omega), if_neg]
          rintro ⟨h1, h2, h3, h4⟩
          rw [openAtO_self] at h4
          exact hc ⟨h3, h4⟩
        · have hshift_o : openAtO sh closed (stepStatus sh closed d s)
              (d+1) x = openAtO sh closed s d x :=
            (openAtO_shift sh closed s d x (by omega)).symm
          have hshift_e : estAtO eh (stepEstimate eh d e) (d+1) x =
              estAtO eh e d x :=
            (estAtO_shift eh e d x (by omega)).symm
          rw [hshift_o, hshift_e]
          by_cases hcond : d ≤ x ∧ x ≤ endd ∧ start ≤ x ∧
              openAtO sh closed s d x = some true
          · rw [if_pos ⟨by omega, hcond.2⟩, if_pos hcond]
          · rw [if_neg (fun hcon => hcond ⟨by omega, hcon.2⟩), if_neg hcond]

/-- Characterization of the spent-effort reconstruction loop: the loop
succeeds and adds the carried estimate at every day in
`[max(d, start), endd]`, with no open/closed condition. -/
lemma spentLoopAux_char (eh : List (Nat × ℚ)) (start endd : Nat) :
    ∀ fuel d (e : Option ℚ) (tt : List (Nat × ℚ)),
      fuel = endd + 1 - d →
      (∀ x, start ≤ x → x ≤ endd → (lookupA x tt).isSome = true) →
      (∀ x, d ≤ x → x ≤ endd → start ≤ x →
        (estAtO eh e d x).isSome = true) →
      ∃ tt', spentLoopAux eh start fuel d e tt = some tt' ∧
        ∀ x, lookupA x tt' =
          if d ≤ x ∧ x ≤ endd ∧ start ≤ x then
            (lookupA x tt).map (fun w => w + (estAtO eh e d x).getD 0)
          else lookupA x tt
  | 0, d, e, tt, hfuel, htt, hok =>
    ⟨tt, rfl, fun x => (if_neg (fun hcon => by
      have h1 := hcon.1
      have h2 := hcon.2.1
      omega)).symm⟩
  | fuel+1, d, e, tt, hfuel, htt, hok => by
    have hde : d ≤ endd := by omega
    by_cases hc : start ≤ d
    · -- day d is inside the window
      have hest : (estAtO eh e d d).isSome = true :=
        hok d (le_refl d) hde hc
      rw [estAtO_self] at hest
      obtain ⟨v, hv⟩ := Option.isSome_iff_exists.mp hest
      obtain ⟨tt1, htt1⟩ := timetableAdd_isSome d v tt (htt d hc hde)
      have hlook := timetableAdd_lookup d v tt tt1 htt1
      have htt1' : ∀ x, start ≤ x → x ≤ endd →
          (lookupA x tt1).isSome = true := by
        intro x hx1 hx2
        rw [hlook x]
        by_cases hxd : x = d
        · rw [if_pos hxd]
          obtain ⟨w, hw⟩ := Option.isSome_iff_exists.mp (htt x hx1 hx2)
          rw [hw]
          rfl
        · rw [if_neg hxd]; exact htt x hx1 hx2
      obtain ⟨tt', hrun, hdesc⟩ :=
        spentLoopAux_char eh start endd fuel (d+1) (some v) tt1 (by omega)
          htt1' (fun x _ _ _ => estAtO_some_isSome eh v (d+1) x)
      refine ⟨tt', ?_, ?_⟩
      · simp only [spentLoopAux, if_pos hc, hv, htt1]
        exact hrun
      · intro x
        rw [hdesc x]
        rcases Nat.lt_trichotomy x d with hxd | hxd | hxd
        · rw [if_neg (fun hcon => by have := hcon.1; omega),
            if_neg (fun hcon => by have := hcon.1; omega), hlook x,
            if_neg (by omega)]
        · rw [hxd]
          rw [if_neg (fun hcon => by have := hcon.1; omega), hlook d,
            if_pos rfl, if_pos ⟨le_refl d, hde, hc⟩, estAtO_self, hv]
          rfl
        · have hshift_e : estAtO eh (some v) (d+1) x = estAtO eh e d x := by
            rw [← hv]
            exact (estAtO_shift eh e d x (by omega)).symm
          rw [hlook x, if_neg (show ¬ x = d from by omega), hshift_e]
          by_cases hcond : d ≤ x ∧ x ≤ endd ∧ start ≤ x
          · rw [if_pos ⟨by omega, hcond.2⟩, if_pos hcond]
          · rw [if_neg (fun hcon => hcond ⟨by omega, hcon.2⟩), if_neg hcond]
    · -- before the window start: no addition
      have hok' : ∀ x, d + 1 ≤ x → x ≤ endd → start ≤ x →
          (estAtO eh (stepEstimate eh d e) (d+1) x).isSome = true := by
        intro x hx1 hx2 hx3
        rw [← estAtO_shift eh e d x (by omega)]
        exact hok x (by omega) hx2 hx3
      obtain ⟨tt', hrun, hdesc⟩ :=
        spentLoopAux_char eh start endd fuel (d+1) (stepEstimate eh d e) tt
          (by omega) htt hok'
      refine ⟨tt', ?_, ?_⟩
      · simp only [spentLoopAux, if_neg hc]
        exact hrun
      · intro x
        rw [hdesc x]
        rcases Nat.lt_trichotomy x d with hxd | hxd | hxd
        · rw [if_neg (fun hcon => by have := hcon.1; omega),
            if_neg (fun hcon => by have := hcon.1; omega)]
        · rw [hxd]
          rw [if_neg (fun hcon => by have := hcon.1; omega),
            if_neg (fun hcon => hc hcon.2.2)]
        · have hshift_e : estAtO eh (stepEstimate eh d e) (d+1) x =
              estAtO eh e d x :=
            (estAtO_shift eh e d x (by omega)).symm
          rw [hshift_e]
          by_cases hcond : d ≤ x ∧ x ≤ endd ∧ start ≤ x
          · rw [if_pos ⟨by omega, hcond.2⟩, if_pos hcond]
          · rw [if_neg (fun hcon => hcond ⟨by omega, hcon.2⟩), if_neg hcond]

/-- The seeded estimate history always has a creation-day entry. -/
lemma seededEstimateHistory_isSome (field : String) (t : Ticket) :
    (lookupA (dayOfTime t.time)
      (seededEstimateHistory field t)).isSome = true := by
  simp only [seededEstimateHistory]
  by_cases h : (lookupA (dayOfTime t.time)
      ((buildHistories field t.changeLog).estimateHistory)).isSome = true
  · rw [if_pos h]; exact h
  · rw [if_neg h, lookupA_insertA_self]
    rfl

/-- The seeded status history always has a creation-day entry. -/
lemma seededStatusHistory_isSome (field : String) (t : Ticket) :
    (lookupA (dayOfTime t.time)
      (seededStatusHistory field t)).isSome = true := by
  simp only [seededStatusHistory]
  by_cases h : (lookupA (dayOfTime t.time)
      ((buildHistories field t.changeLog).statusHistory)).isSome = true
  · rw [if_pos h]; exact h
  · rw [if_neg h, lookupA_insertA_self]
    rfl

lemma estAtO_seeded (field : String) (t : Ticket) (x : Nat)
    (h : dayOfTime t.time ≤ x) :
    estAtO (seededEstimateHistory field t) none (dayOfTime t.time) x =
      some (ticketEstimateAt field t x) := by
  rw [estAtO, carriedAt]
  exact applyDays_liftSome_eq _ 0 none _
    (seededEstimateHistory_isSome field t) _ (by omega)

lemma openAtO_seeded (field : String) (closed : List String) (t : Ticket)
    (x : Nat) (h : dayOfTime t.time ≤ x) :
    openAtO (seededStatusHistory field t) closed none (dayOfTime t.time) x =
      some (ticketOpenAt field closed t x) := by
  rw [openAtO, carriedAt]
  refine applyDays_liftSome_eq (mapOpen closed (seededStatusHistory field t))
    false none _ ?_ _ (by omega)
  obtain ⟨v, hv⟩ :=
    Option.isSome_iff_exists.mp (seededStatusHistory_isSome field t)
  rw [lookupA_mapOpen, hv]
  rfl

/-- Characterization of the per-ticket body of `_calculate_timetable`:
it never fails, and it adds the reconstructed estimate exactly on the
window days on or after creation on which the ticket counts as open. -/
lemma processTicketRemaining_char (field : String) (closed : List String)
    (start endd : Nat) (t : Ticket) (tt : List (Nat × ℚ))
    (htt : ∀ x, start ≤ x → x ≤ endd → (lookupA x tt).isSome = true) :
    ∃ tt', processTicketRemaining field closed start endd tt t = some tt' ∧
      ∀ x, lookupA x tt' =
        if dayOfTime t.time ≤ x ∧ x ≤ endd ∧ start ≤ x ∧
            ticketOpenAt field closed t x = true then
          (lookupA x tt).map (fun w => w + ticketEstimateAt field t x)
        else lookupA x tt := by
  obtain ⟨tt', hrun, hdesc⟩ :=
    remainingLoopAux_char (seededEstimateHistory field t)
      (seededStatusHistory field t) closed start endd
      (endd + 1 - dayOfTime t.time) (dayOfTime t.time) none none tt rfl htt
      (fun x hx _ _ _ => by rw [estAtO_seeded field t x hx]; rfl)
  refine ⟨tt', ?_, fun x => ?_⟩
  · simp only [processTicketRemaining]
    exact hrun
  · rw [hdesc x]
    by_cases hcx : dayOfTime t.time ≤ x
    · rw [openAtO_seeded field closed t x hcx, estAtO_seeded field t x hcx]
      simp only [Option.some.injEq, Option.getD_some]
    · rw [if_neg (fun hcon => hcx hcon.1), if_neg (fun hcon => hcx hcon.1)]

/-- Characterization of the per-ticket body of
`_calculate_timetable_spent`: it never fails, and it adds the
reconstructed estimate on every window day on or after creation. -/
lemma processTicketSpent_char (field : String) (start endd : Nat)
    (t : Ticket) (tt : List (Nat × ℚ))
    (htt : ∀ x, start ≤ x → x ≤ endd → (lookupA x tt).isSome = true) :
    ∃ tt', processTicketSpent field start endd tt t = some tt' ∧
      ∀ x, lookupA x tt' =
        if dayOfTime t.time ≤ x ∧ x ≤ endd ∧ start ≤ x then
          (lookupA x tt).map (fun w => w + ticketEstimateAt field t x)
        else lookupA x tt := by
  obtain ⟨tt', hrun, hdesc⟩ :=
    spentLoopAux_char (seededEstimateHistory field t) start endd
      (endd + 1 - dayOfTime t.time) (dayOfTime t.time) none tt rfl htt
      (fun x hx _ _ => by rw [estAtO_seeded field t x hx]; rfl)
  refine ⟨tt', ?_, fun x => ?_⟩
  · simp only [processTicketSpent]
    exact hrun
  · rw [hdesc x]
    by_cases hcx : dayOfTime t.time ≤ x
    · rw [estAtO_seeded field t x hcx]
      simp only [Option.getD_some]
    · rw [if_neg (fun hcon => hcx hcon.1), if_neg (fun hcon => hcx hcon.1)]

lemma remainingLoopAux_keys (eh : List (Nat × ℚ)) (sh : List (Nat × String))
    (closed : List String) (start : Nat) :
    ∀ fuel d e s tt tt',
      remainingLoopAux eh sh closed start fuel d e s tt = some tt' →
      tt'.map Prod.fst = tt.map Prod.fst
  | 0, d, e, s, tt, tt', h => by
    rw [remainingLoopAux] at h
    cases h
    rfl
  | fuel+1, d, e, s, tt, tt', h => by
    by_cases hc : start ≤ d ∧ stepStatus sh closed d s = some true
    · cases he : stepEstimate eh d e with
      | none =>
        simp only [remainingLoopAux, if_pos hc, he] at h
        exact absurd h (by simp)
      | some v =>
        cases hadd : timetableAdd d v tt with
        | none =>
          simp only [remainingLoopAux, if_pos hc, he, hadd] at h
          exact absurd h (by simp)
        | some tt1 =>
          simp only [remainingLoopAux, if_pos hc, he, hadd] at h
          exact (remainingLoopAux_keys eh sh closed start fuel (d+1)
              (some v) (stepStatus sh closed d s) tt1 tt' h).trans
            (timetableAdd_keys d v tt tt1 hadd)
    · simp only [remainingLoopAux, if_neg hc] at h
      exact remainingLoopAux_keys eh sh closed start fuel (d+1)
        (stepEstimate eh d e) (stepStatus sh closed d s) tt tt' h

lemma spentLoopAux_keys (eh : List (Nat × ℚ)) (start : Nat) :
    ∀ fuel d e tt tt',
      spentLoopAux eh start fuel d e tt = some tt' →
      tt'.map Prod.fst = tt.map Prod.fst
  | 0, d, e, tt, tt', h => by
    rw [spentLoopAux] at h
    cases h
    rfl
  | fuel+1, d, e, tt, tt', h => by
    by_cases hc : start ≤ d
    · cases he : stepEstimate eh d e with
      | none =>
        simp only [spentLoopAux, if_pos hc, he] at h
        exact absurd h (by simp)
      | some v =>
        cases hadd : timetableAdd d v tt with
        | none =>
          simp only [spentLoopAux, if_pos hc, he, hadd] at h
          exact absurd h (by simp)
        | some tt1 =>
          simp only [spentLoopAux, if_pos hc, he, hadd] at h
          exact (spentLoopAux_keys eh start fuel (d+1) (some v) tt1 tt'
              h).trans (timetableAdd_keys d v tt tt1 hadd)
    · simp only [spentLoopAux, if_neg hc] at h
      exact spentLoopAux_keys eh start fuel (d+1) (stepEstimate eh d e)
        tt tt' h

lemma processTicketRemaining_keys (field : String) (closed : List String)
    (start endd : Nat) (t : Ticket) (tt tt' : List (Nat × ℚ))
    (h : processTicketRemaining field closed start endd tt t = some tt') :
    tt'.map Prod.fst = tt.map Prod.fst := by
  simp only [processTicketRemaining] at h
  exact remainingLoopAux_keys _ _ closed start _ _ none none tt tt' h

lemma processTicketSpent_keys (field : String) (start endd : Nat)
    (t : Ticket) (tt tt' : List (Nat × ℚ))
    (h : processTicketSpent field start endd tt t = some tt') :
    tt'.map Prod.fst = tt.map Prod.fst := by
  simp only [processTicketSpent] at h
  exact spentLoopAux_keys _ start _ _ none tt tt' h

lemma foldRemaining_some_keys (field : String) (closed : List String)
    (start endd : Nat) :
    ∀ (tickets : List Ticket) (tt0 : List (Nat × ℚ)),
      (∀ x, start ≤ x → x ≤ endd → (lookupA x tt0).isSome = true) →
      ∃ tt', tickets.foldlM
          (processTicketRemaining field closed start endd) tt0 = some tt' ∧
        tt'.map Prod.fst = tt0.map Prod.fst
  | [], tt0, _ => ⟨tt0, rfl, rfl⟩
  | t :: rest, tt0, h => by
    obtain ⟨tt1, hp, -⟩ :=
      processTicketRemaining_char field closed start endd t tt0 h
    have hk : tt1.map Prod.fst = tt0.map Prod.fst :=
      processTicketRemaining_keys field closed start endd t tt0 tt1 hp
    have h1 : ∀ x, start ≤ x → x ≤ endd → (lookupA x tt1).isSome = true := by
      intro x hx1 hx2
      rw [lookupA_isSome_iff, hk, ← lookupA_isSome_iff]
      exact h x hx1 hx2
    obtain ⟨tt', hrun, hkeys⟩ :=
      foldRemaining_some_keys field closed start endd rest tt1 h1
    refine ⟨tt', ?_, hkeys.trans hk⟩
    rw [List.foldlM_cons, hp]
    exact hrun

lemma foldSpent_some_keys (field : String) (start endd : Nat) :
    ∀ (tickets : List Ticket) (tt0 : List (Nat × ℚ)),
      (∀ x, start ≤ x → x ≤ endd → (lookupA x tt0).isSome = true) →
      ∃ tt', tickets.foldlM
          (processTicketSpent field start endd) tt0 = some tt' ∧
        tt'.map Prod.fst = tt0.map Prod.fst
  | [], tt0, _ => ⟨tt0, rfl, rfl⟩
  | t :: rest, tt0, h => by
    obtain ⟨tt1, hp, -⟩ := processTicketSpent_char field start endd t tt0 h
    have hk : tt1.map Prod.fst = tt0.map Prod.fst :=
      processTicketSpent_keys field start endd t tt0 tt1 hp
    have h1 : ∀ x, start ≤ x → x ≤ endd → (lookupA x tt1).isSome = true := by
      intro x hx1 hx2
      rw [lookupA_isSome_iff, hk, ← lookupA_isSome_iff]
      exact h x hx1 hx2
    obtain ⟨tt', hrun, hkeys⟩ :=
      foldSpent_some_keys field start endd rest tt1 h1
    refine ⟨tt', ?_, hkeys.trans hk⟩
    rw [List.foldlM_cons, hp]
    exact hrun

lemma initTimetable_isSome (s e : Nat) :
    ∀ x, s ≤ x → x ≤ e → (lookupA x (initTimetable s e)).isSome = true := by
  intro x h1 h2
  rw [lookupA_initTimetable, if_pos ⟨h1, h2⟩]
  rfl

/-- C3: window-coverage invariant.  For every window `[s, e]` the seeded
timetable has exactly `e - s + 1` entries, one per calendar day
`s, s+1, …, e` in order with no gaps, each pre-seeded to `Decimal 0`;
and for every ticket set both `_calculate_timetable` and
`_calculate_timetable_spent` succeed and return a timetable with exactly
the same keys (before any weekend removal). -/
theorem c3_window_coverage (s e : Nat) (h : s ≤ e) :
    (initTimetable s e).length = e - s + 1 ∧
    (initTimetable s e).map Prod.fst = List.range' s (e - s + 1) ∧
    (∀ p ∈ initTimetable s e, p.2 = (0 : ℚ)) ∧
    (∀ field closed tickets, ∃ ttR,
      calculateTimetable field closed s e tickets = some ttR ∧
      ttR.length = e - s + 1 ∧
      ttR.map Prod.fst = List.range' s (e - s + 1)) ∧
    (∀ field tickets, ∃ ttS,
      calculateTimetableSpent field s e tickets = some ttS ∧
      ttS.length = e - s + 1 ∧
      ttS.map Prod.fst = List.range' s (e - s + 1)) := by
  have hfuel : e + 1 - s = e - s + 1 := by omega
  have hlen : (initTimetable s e).length = e - s + 1 := by
    rw [initTimetable, initTimetableAux_length, hfuel]
  have hkeys : (initTimetable s e).map Prod.fst =
      List.range' s (e - s + 1) := by
    rw [initTimetable, initTimetableAux_keys, hfuel]
  refine ⟨hlen, hkeys, initTimetableAux_values _ _, ?_, ?_⟩
  · intro field closed tickets
    obtain ⟨ttR, hrun, hk⟩ := foldRemaining_some_keys field closed s e
      tickets (initTimetable s e) (initTimetable_isSome s e)
    refine ⟨ttR, hrun, ?_, hk.trans hkeys⟩
    have hl := congrArg List.length (hk.trans hkeys)
    simpa using hl
  · intro field tickets
    obtain ⟨ttS, hrun, hk⟩ := foldSpent_some_keys field s e
      tickets (initTimetable s e) (initTimetable_isSome s e)
    refine ⟨ttS, hrun, ?_, hk.trans hkeys⟩
    have hl := congrArg List.length (hk.trans hkeys)
    simpa using hl

/-- Witness for C3 at the concrete window `[0, 1]`. -/
theorem c3_window_coverage_witness :
    (0 : Nat) ≤ 1 ∧
    ((initTimetable 0 1).length = 1 - 0 + 1 ∧
     (initTimetable 0 1).map Prod.fst = List.range' 0 (1 - 0 + 1) ∧
     (∀ p ∈ initTimetable 0 1, p.2 = (0 : ℚ)) ∧
     (∀ field closed tickets, ∃ ttR,
       calculateTimetable field closed 0 1 tickets = some ttR ∧
       ttR.length = 1 - 0 + 1 ∧
       ttR.map Prod.fst = List.range' 0 (1 - 0 + 1)) ∧
     (∀ field tickets, ∃ ttS,
       calculateTimetableSpent field 0 1 tickets = some ttS ∧
       ttS.length = 1 - 0 + 1 ∧
       ttS.map Prod.fst = List.range' 0 (1 - 0 + 1))) :=
  ⟨by decide, c3_window_coverage 0 1 (by decide)⟩

/-- C9: no-error edge case.  A ticket created after the window end
makes the reconstruction loop run zero iterations and contribute
nothing (for both the remaining and the spent variant); and for any
creation date the loops succeed on a window-covering timetable (no
missing-key access, no `None` addition) and change no entry outside
`[startdate, enddate]`. -/
theorem c9_no_error_edge_case (field : String) (closed : List String)
    (start endd : Nat) (t : Ticket) (tt : List (Nat × ℚ))
    (htt : ∀ x, start ≤ x → x ≤ endd → (lookupA x tt).isSome = true) :
    (endd < dayOfTime t.time →
      processTicketRemaining field closed start endd tt t = some tt ∧
      processTicketSpent field start endd tt t = some tt) ∧
    (∃ ttR, processTicketRemaining field closed start endd tt t = some ttR ∧
      ∀ x, x < start ∨ endd < x → lookupA x ttR = lookupA x tt) ∧
    (∃ ttS, processTicketSpent field start endd tt t = some ttS ∧
      ∀ x, x < start ∨ endd < x → lookupA x ttS = lookupA x tt) := by
  refine ⟨?_, ?_, ?_⟩
  · intro hlate
    constructor
    · simp only [processTicketRemaining]
      rw [show endd + 1 - dayOfTime t.time = 0 from by omega]
      rfl
    · simp only [processTicketSpent]
      rw [show endd + 1 - dayOfTime t.time = 0 from by omega]
      rfl
  · obtain ⟨ttR, hrun, hdesc⟩ :=
      processTicketRemaining_char field closed start endd t tt htt
    refine ⟨ttR, hrun, fun x hx => ?_⟩
    rw [hdesc x, if_neg]
    rintro ⟨h1, h2, h3, h4⟩
    rcases hx with hx | hx <;> omega
  · obtain ⟨ttS, hrun, hdesc⟩ :=
      processTicketSpent_char field start endd t tt htt
    refine ⟨ttS, hrun, fun x hx => ?_⟩
    rw [hdesc x, if_neg]
    rintro ⟨h1, h2, h3⟩
    rcases hx with hx | hx <;> omega

/-- Witness for C9: a ticket created on day 5 against the window
`[0, 1]`. -/
theorem c9_no_error_edge_case_witness :
    (∀ x, 0 ≤ x → x ≤ 1 →
      (lookupA x (initTimetable 0 1)).isSome = true) ∧
    ((1 < dayOfTime (5 * usPerDay) →
      processTicketRemaining "estimatedhours" ["closed"] 0 1
        (initTimetable 0 1) ⟨5 * usPerDay, "new", some "5", []⟩ =
        some (initTimetable 0 1) ∧
      processTicketSpent "estimatedhours" 0 1 (initTimetable 0 1)
        ⟨5 * usPerDay, "new", some "5", []⟩ = some (initTimetable 0 1)) ∧
    (∃ ttR, processTicketRemaining "estimatedhours" ["closed"] 0 1
        (initTimetable 0 1) ⟨5 * usPerDay, "new", some "5", []⟩ =
        some ttR ∧
      ∀ x, x < 0 ∨ 1 < x →
        lookupA x ttR = lookupA x (initTimetable 0 1)) ∧
    (∃ ttS, processTicketSpent "estimatedhours" 0 1 (initTimetable 0 1)
        ⟨5 * usPerDay, "new", some "5", []⟩ = some ttS ∧
      ∀ x, x < 0 ∨ 1 < x →
        lookupA x ttS = lookupA x (initTimetable 0 1))) :=
  ⟨initTimetable_isSome 0 1,
   c9_no_error_edge_case "estimatedhours" ["closed"] 0 1
     ⟨5 * usPerDay, "new", some "5", []⟩ (initTimetable 0 1)
     (initTimetable_isSome 0 1)⟩

/-- Rows that touch neither the tracked field (nor, in particular, the
status field when they are not status rows) leave the estimate
components of the history state unchanged. -/
lemma foldl_buildStep_no_field (field : String) :
    ∀ (rows : List ChangeRow), (∀ r ∈ rows, r.field ≠ field) →
      ∀ st : HistState,
        (rows.foldl (buildStep field) st).estimateHistory =
          st.estimateHistory ∧
        (rows.foldl (buildStep field) st).earliestEstimate =
          st.earliestEstimate
  | [], _, st => ⟨rfl, rfl⟩
  | r :: rest, h, st => by
    have hr : r.field ≠ field := h r (List.mem_cons_self r rest)
    have hrec := foldl_buildStep_no_field field rest
      (fun r' hr' => h r' (List.mem_cons_of_mem r hr')) (buildStep field st r)
    rw [List.foldl_cons]
    have hstep : (buildStep field st r).estimateHistory =
        st.estimateHistory ∧
        (buildStep field st r).earliestEstimate = st.earliestEstimate := by
      simp only [buildStep, if_neg hr]
      by_cases hs : r.field = "status" <;> simp [hs]
    exact ⟨hrec.1.trans hstep.1, hrec.2.trans hstep.2⟩

/-- Rows on the tracked field (which is not `"status"`) leave the status
components of the history state unchanged. -/
lemma foldl_buildStep_status_inv (field : String) (hfs : field ≠ "status") :
    ∀ (rows : List ChangeRow), (∀ r ∈ rows, r.field = field) →
      ∀ st : HistState,
        (rows.foldl (buildStep field) st).statusHistory =
          st.statusHistory ∧
        (rows.foldl (buildStep field) st).earliestStatus =
          st.earliestStatus
  | [], _, st => ⟨rfl, rfl⟩
  | r :: rest, h, st => by
    have hr : r.field = field := h r (List.mem_cons_self r rest)
    have hrec := foldl_buildStep_status_inv field hfs rest
      (fun r' hr' => h r' (List.mem_cons_of_mem r hr')) (buildStep field st r)
    rw [List.foldl_cons]
    have hstep : (buildStep field st r).statusHistory = st.statusHistory ∧
        (buildStep field st r).earliestStatus = st.earliestStatus := by
      simp [buildStep, if_pos hr]
    exact ⟨hrec.1.trans hstep.1, hrec.2.trans hstep.2⟩

/-- A ticket whose change log never touches the tracked field gets its
estimate history seeded to the single entry (creation day, current
value). -/
lemma seededEstimateHistory_no_rows (field : String) (t : Ticket) (E : ℚ)
    (hrows : ∀ r ∈ t.changeLog, r.field ≠ field)
    (hcast : castEstimate t.value = some E) :
    seededEstimateHistory field t = [(dayOfTime t.time, E)] := by
  obtain ⟨h1, h2⟩ :=
    foldl_buildStep_no_field field t.changeLog hrows ⟨[], [], none, none⟩
  simp only [seededEstimateHistory, buildHistories, h1, h2]
  rw [hcast]
  simp [lookupA, insertA]

lemma applyDays_single {α : Type} (c : Nat) (a e : α) (n : Nat)
    (hn : 1 ≤ n) : applyDays [(c, a)] e c n = a := by
  have h := applyDays_eq_of_none [(c, a)] e c 1 n hn (fun k hk1 hk2 => by
    rw [lookupA, if_neg (by omega), lookupA])
  rw [h, applyDays_one, applyDay1, lookupA, if_pos rfl]

lemma carriedAt_single {α : Type} (c : Nat) (a e : α) (x : Nat)
    (hx : c ≤ x) : carriedAt [(c, a)] e c x = a := by
  rw [carriedAt]
  exact applyDays_single c a e (x + 1 - c) (by omega)

/-- Forward fill over a two-entry history `{c: a, D: b}` with `c < D`:
days in `[c, D)` carry `a`, days from `D` carry `b`. -/
lemma carriedAt_pair {α : Type} (c D : Nat) (a b e : α) (x : Nat)
    (hcD : c < D) (hx : c ≤ x) :
    carriedAt ((c, a) :: [(D, b)]) e c x = if x < D then a else b := by
  by_cases hxD : x < D
  · rw [if_pos hxD, carriedAt]
    have h := applyDays_eq_of_none ((c, a) :: [(D, b)]) e c 1 (x + 1 - c)
      (by omega) (fun k hk1 hk2 => by
        rw [lookupA, if_neg (by omega), lookupA, if_neg (by omega), lookupA])
    rw [h, applyDays_one, applyDay1, lookupA, if_pos rfl]
  · rw [if_neg hxD, carriedAt]
    have h := applyDays_eq_of_none ((c, a) :: [(D, b)]) e c (D - c + 1)
      (x + 1 - c) (by omega) (fun k hk1 hk2 => by
        rw [lookupA, if_neg (by omega), lookupA, if_neg (by omega), lookupA])
    rw [h, applyDays, show c + (D - c) = D from by omega, lookupA,
      if_neg (by omega), lookupA, if_pos rfl]

lemma ticketEstimateAt_carriedAt (field : String) (t : Ticket) (x : Nat) :
    ticketEstimateAt field t x =
      carriedAt (seededEstimateHistory field t) 0 (dayOfTime t.time) x := rfl

lemma ticketOpenAt_carriedAt (field : String) (closed : List String)
    (t : Ticket) (x : Nat) :
    ticketOpenAt field closed t x =
      carriedAt (mapOpen closed (seededStatusHistory field t)) false
        (dayOfTime t.time) x := rfl

/-- C6 (amended): a ticket whose tracked field is never changed, whose
current value casts to `E`, and which counts as open on every window day
it overlaps, contributes exactly `E` to every remaining-timetable day on
or after its creation date; the spent timetable receives `E` on those
days with no openness condition. -/
theorem c6_forward_fill_amended (field : String) (closed : List String)
    (start endd : Nat) (t : Ticket) (E : ℚ)
    (hrows : ∀ r ∈ t.changeLog, r.field ≠ field)
    (hcast : castEstimate t.value = some E)
    (hopen : ∀ x, dayOfTime t.time ≤ x → x ≤ endd →
      ticketOpenAt field closed t x = true) :
    ∃ ttR ttS,
      calculateTimetable field closed start endd [t] = some ttR ∧
      calculateTimetableSpent field start endd [t] = some ttS ∧
      ∀ x, start ≤ x → x ≤ endd → dayOfTime t.time ≤ x →
        lookupA x ttR = some E ∧ lookupA x ttS = some E := by
  have hconst : ∀ x, dayOfTime t.time ≤ x → ticketEstimateAt field t x = E := by
    intro x hx
    rw [ticketEstimateAt_carriedAt,
      seededEstimateHistory_no_rows field t E hrows hcast,
      carriedAt_single _ _ _ _ hx]
  obtain ⟨ttR, hrunR, hdescR⟩ :=
    processTicketRemaining_char field closed start endd t
      (initTimetable start endd) (initTimetable_isSome start endd)
  obtain ⟨ttS, hrunS, hdescS⟩ :=
    processTicketSpent_char field start endd t
      (initTimetable start endd) (initTimetable_isSome start endd)
  refine ⟨ttR, ttS, ?_, ?_, fun x hx1 hx2 hx3 => ⟨?_, ?_⟩⟩
  · simp only [calculateTimetable, List.foldlM_cons, List.foldlM_nil, hrunR]
    rfl
  · simp only [calculateTimetableSpent, List.foldlM_cons, List.foldlM_nil,
      hrunS]
    rfl
  · rw [hdescR x, if_pos ⟨hx3, hx2, hx1, hopen x hx3 hx2⟩,
      lookupA_initTimetable, if_pos ⟨hx1, hx2⟩, hconst x hx3]
    simp
  · rw [hdescS x, if_pos ⟨hx3, hx2, hx1⟩,
      lookupA_initTimetable, if_pos ⟨hx1, hx2⟩, hconst x hx3]
    simp

/-- Counterexample to C6 as stated: a ticket created day 0 with estimate
"5" and an empty change log whose current status is closed contributes 0
(not 5) to every day of the window `[0, 1]` in the remaining-effort
timetable. -/
theorem c6_forward_fill_counterexample :
    castEstimate (some "5") = some 5 ∧
    calculateTimetable "estimatedhours" ["closed"] 0 1
      [⟨0, "closed", some "5", []⟩] = some [(0, 0), (1, 0)] ∧
    (0 : ℚ) ≠ 5 := by
  refine ⟨cast_five, ?_, by norm_num⟩
  have heh : seededEstimateHistory "estimatedhours"
      ⟨0, "closed", some "5", []⟩ = [(0, 5)] := by
    simp only [seededEstimateHistory, buildHistories, List.foldl]
    norm_num [cast_five, dayOfTime, usPerDay, lookupA, insertA]
  have hsh : seededStatusHistory "estimatedhours"
      ⟨0, "closed", some "5", []⟩ = [(0, "closed")] := by
    simp only [seededStatusHistory, buildHistories, List.foldl]
    norm_num [dayOfTime, usPerDay, lookupA, insertA]
  rw [calculateTimetable, List.foldlM, processTicketRemaining, heh, hsh]
  norm_num [dayOfTime, usPerDay, initTimetable, initTimetableAux,
    remainingLoopAux, stepStatus, stepEstimate, lookupA, timetableAdd,
    show (decide (("closed" : String) ∉ ["closed"])) = false from by decide]

/-- Witness for the amended C6: an open never-changed ticket with
estimate "5" contributes 5 to both timetables on each window day. -/
theorem c6_forward_fill_amended_witness :
    castEstimate (some "5") = some 5 ∧
    (∃ ttR ttS,
      calculateTimetable "estimatedhours" ["closed"] 0 1
        [⟨0, "new", some "5", []⟩] = some ttR ∧
      calculateTimetableSpent "estimatedhours" 0 1
        [⟨0, "new", some "5", []⟩] = some ttS ∧
      ∀ x, 0 ≤ x → x ≤ 1 →
        dayOfTime (Ticket.mk 0 "new" (some "5") []).time ≤ x →
        lookupA x ttR = some 5 ∧ lookupA x ttS = some 5) := by
  refine ⟨cast_five, ?_⟩
  refine c6_forward_fill_amended "estimatedhours" ["closed"] 0 1
    ⟨0, "new", some "5", []⟩ 5 (by simp) cast_five ?_
  intro x hx1 hx2
  rw [ticketOpenAt_carriedAt,
    show seededStatusHistory "estimatedhours" ⟨0, "new", some "5", []⟩ =
      [(0, "new")] from by decide,
    show mapOpen ["closed"] [(0, "new")] = [(0, true)] from by decide,
    show dayOfTime (Ticket.mk 0 "new" (some "5") []).time = 0 from by decide]
  exact carriedAt_single 0 true false x (by omega)

/-- A change log consisting of tracked-field rows around a single status
row produces exactly that one status entry, with the row's old value as
earliest status. -/
lemma buildHistories_single_status (field : String) (hfs : field ≠ "status")
    (ers1 ers2 : List ChangeRow) (srow : ChangeRow)
    (hf1 : ∀ r ∈ ers1, r.field = field) (hf2 : ∀ r ∈ ers2, r.field = field)
    (hs : srow.field = "status") :
    (buildHistories field (ers1 ++ srow :: ers2)).statusHistory =
      [(dayOfTime srow.time, srow.newvalue)] ∧
    (buildHistories field (ers1 ++ srow :: ers2)).earliestStatus =
      some srow.oldvalue := by
  have h1 := foldl_buildStep_status_inv field hfs ers1 hf1
    (⟨[], [], none, none⟩ : HistState)
  have hns : ¬ srow.field = field := by
    rw [hs]; exact fun hc => hfs hc.symm
  have hstep1 : (buildStep field
      (ers1.foldl (buildStep field) ⟨[], [], none, none⟩)
      srow).statusHistory = [(dayOfTime srow.time, srow.newvalue)] := by
    simp only [buildStep, if_neg hns, if_pos hs]
    rw [show (ers1.foldl (buildStep field)
        (⟨[], [], none, none⟩ : HistState)).statusHistory = [] from h1.1]
    rfl
  have hstep2 : (buildStep field
      (ers1.foldl (buildStep field) ⟨[], [], none, none⟩)
      srow).earliestStatus = some srow.oldvalue := by
    simp only [buildStep, if_neg hns, if_pos hs]
    rw [show (ers1.foldl (buildStep field)
        (⟨[], [], none, none⟩ : HistState)).earliestStatus = none from h1.2]
  have h2 := foldl_buildStep_status_inv field hfs ers2 hf2
    (buildStep field (ers1.foldl (buildStep field) ⟨[], [], none, none⟩)
      srow)
  rw [buildHistories, List.foldl_append, List.foldl_cons]
  exact ⟨h2.1.trans hstep1, h2.2.trans hstep2⟩

/-- The seeded status history of a ticket with a single status change:
just that change if it happened on the creation day, else the old status
seeded on the creation day followed by the change. -/
lemma seededStatusHistory_single (field : String) (t : Ticket)
    (ers1 ers2 : List ChangeRow) (srow : ChangeRow)
    (hlog : t.changeLog = ers1 ++ srow :: ers2)
    (hf1 : ∀ r ∈ ers1, r.field = field) (hf2 : ∀ r ∈ ers2, r.field = field)
    (hfs : field ≠ "status") (hs : srow.field = "status") :
    seededStatusHistory field t =
      if dayOfTime t.time = dayOfTime srow.time then
        [(dayOfTime srow.time, srow.newvalue)]
      else
        (dayOfTime t.time, srow.oldvalue) ::
          [(dayOfTime srow.time, srow.newvalue)] := by
  obtain ⟨hsh, hes⟩ :=
    buildHistories_single_status field hfs ers1 ers2 srow hf1 hf2 hs
  simp only [seededStatusHistory, hlog, hsh, hes]
  by_cases hcd : dayOfTime t.time = dayOfTime srow.time
  · have hcond : (lookupA (dayOfTime t.time)
        [(dayOfTime srow.time, srow.newvalue)]).isSome = true := by
      rw [lookupA, if_pos hcd.symm]
      rfl
    rw [if_pos hcond, if_pos hcd]
  · have hcond : ¬ (lookupA (dayOfTime t.time)
        [(dayOfTime srow.time, srow.newvalue)]).isSome = true := by
      rw [lookupA, if_neg (fun hc => hcd hc.symm), lookupA]
      simp
    rw [if_neg hcond, if_neg hcd]
    rfl

/-- Open/closed reconstruction for a ticket with exactly one status
change, from an open status to a closed one on day `D`: the ticket
counts as open on days in `[creation, D)` and closed from `D` on. -/
lemma ticketOpenAt_single_transition (field : String) (closed : List String)
    (t : Ticket) (ers1 ers2 : List ChangeRow) (srow : ChangeRow) (D : Nat)
    (hlog : t.changeLog = ers1 ++ srow :: ers2)
    (hf1 : ∀ r ∈ ers1, r.field = field) (hf2 : ∀ r ∈ ers2, r.field = field)
    (hfs : field ≠ "status") (hs : srow.field = "status")
    (hD : dayOfTime srow.time = D) (hcre : dayOfTime t.time ≤ D)
    (hnew : srow.newvalue ∈ closed) (hold : srow.oldvalue ∉ closed) :
    ∀ x, dayOfTime t.time ≤ x →
      ticketOpenAt field closed t x = decide (x < D) := by
  intro x hx
  have hbo : decide (srow.oldvalue ∉ closed) = true := decide_eq_true hold
  have hbn : decide (srow.newvalue ∉ closed) = false :=
    decide_eq_false (fun hn => hn hnew)
  rw [ticketOpenAt_carriedAt,
    seededStatusHistory_single field t ers1 ers2 srow hlog hf1 hf2 hfs hs]
  by_cases hcd : dayOfTime t.time = dayOfTime srow.time
  · rw [if_pos hcd]
    have hmo : mapOpen closed [(dayOfTime srow.time, srow.newvalue)] =
        [(dayOfTime srow.time, false)] := by
      simp only [mapOpen, List.map_cons, List.map_nil]
      rw [hbn]
    rw [hmo, hcd, hD, carriedAt_single D false false x (by omega)]
    have : ¬ x < D := by omega
    simp [this]
  · rw [if_neg hcd]
    have hmo : mapOpen closed ((dayOfTime t.time, srow.oldvalue) ::
        [(dayOfTime srow.time, srow.newvalue)]) =
        (dayOfTime t.time, true) :: [(dayOfTime srow.time, false)] := by
      simp only [mapOpen, List.map_cons, List.map_nil]
      rw [hbo, hbn]
    have hlt : dayOfTime t.time < D := by
      rcases Nat.lt_or_ge (dayOfTime t.time) D with h | h
      · exact h
      · exact absurd (by omega : dayOfTime t.time = D)
          (by rw [← hD] at *; exact hcd)
    rw [hmo, hD, carriedAt_pair (dayOfTime t.time) D true false false x
      hlt hx]
    by_cases hxD : x < D
    · simp [hxD]
    · simp [hxD]

/-- C2: open/closed policy.  For a ticket whose change log contains
tracked-field rows and exactly one status row, switching from an open
status to a closed one on day `D ≥` creation: in the remaining-effort
timetable every window day in `[creation, D)` receives the carried
estimate, every window day from `D` on stays at zero, while the spent
timetable receives the carried estimate on every window day from the
creation date on, regardless of the transition. -/
theorem c2_open_closed_policy (field : String) (closed : List String)
    (start endd D : Nat) (t : Ticket) (ers1 ers2 : List ChangeRow)
    (srow : ChangeRow)
    (hlog : t.changeLog = ers1 ++ srow :: ers2)
    (hf1 : ∀ r ∈ ers1, r.field = field) (hf2 : ∀ r ∈ ers2, r.field = field)
    (hfs : field ≠ "status") (hs : srow.field = "status")
    (hD : dayOfTime srow.time = D)
    (hnew : srow.newvalue ∈ closed) (hold : srow.oldvalue ∉ closed)
    (hcre : dayOfTime t.time ≤ D) :
    ∃ ttR ttS,
      calculateTimetable field closed start endd [t] = some ttR ∧
      calculateTimetableSpent field start endd [t] = some ttS ∧
      ∀ x, start ≤ x → x ≤ endd → dayOfTime t.time ≤ x →
        (x < D → lookupA x ttR = some (ticketEstimateAt field t x)) ∧
        (D ≤ x → lookupA x ttR = some 0) ∧
        lookupA x ttS = some (ticketEstimateAt field t x) := by
  have hopen := ticketOpenAt_single_transition field closed t ers1 ers2
    srow D hlog hf1 hf2 hfs hs hD hcre hnew hold
  obtain ⟨ttR, hrunR, hdescR⟩ :=
    processTicketRemaining_char field closed start endd t
      (initTimetable start endd) (initTimetable_isSome start endd)
  obtain ⟨ttS, hrunS, hdescS⟩ :=
    processTicketSpent_char field start endd t
      (initTimetable start endd) (initTimetable_isSome start endd)
  refine ⟨ttR, ttS, ?_, ?_, fun x hx1 hx2 hx3 => ⟨?_, ?_, ?_⟩⟩
  · simp only [calculateTimetable, List.foldlM_cons, List.foldlM_nil, hrunR]
    rfl
  · simp only [calculateTimetableSpent, List.foldlM_cons, List.foldlM_nil,
      hrunS]
    rfl
  · intro hxD
    rw [hdescR x, if_pos ⟨hx3, hx2, hx1, by
        rw [hopen x hx3]; exact decide_eq_true hxD⟩,
      lookupA_initTimetable, if_pos ⟨hx1, hx2⟩]
    simp
  · intro hDx
    rw [hdescR x, if_neg (fun hcon => by
        have h4 := hcon.2.2.2
        rw [hopen x hx3] at h4
        exact absurd (of_decide_eq_true h4) (by omega)),
      lookupA_initTimetable, if_pos ⟨hx1, hx2⟩]
  · rw [hdescS x, if_pos ⟨hx3, hx2, hx1⟩,
      lookupA_initTimetable, if_pos ⟨hx1, hx2⟩]
    simp

/-- A ticket created day 0, closed on day 2 by its single status row. -/
def c2ticket : Ticket :=
  { time := 0
    status := "closed"
    value := some "5"
    changeLog := [⟨"status", 2 * usPerDay, "new", "closed"⟩] }

/-- Witness for C2 at a concrete ticket closed on day 2 of the window
`[0, 3]`. -/
theorem c2_open_closed_policy_witness :
    (("closed" : String) ∈ ["closed"] ∧ ("new" : String) ∉ ["closed"]) ∧
    (∃ ttR ttS,
      calculateTimetable "estimatedhours" ["closed"] 0 3 [c2ticket] =
        some ttR ∧
      calculateTimetableSpent "estimatedhours" 0 3 [c2ticket] = some ttS ∧
      ∀ x, 0 ≤ x → x ≤ 3 → dayOfTime c2ticket.time ≤ x →
        (x < 2 → lookupA x ttR =
          some (ticketEstimateAt "estimatedhours" c2ticket x)) ∧
        (2 ≤ x → lookupA x ttR = some 0) ∧
        lookupA x ttS =
          some (ticketEstimateAt "estimatedhours" c2ticket x)) :=
  ⟨⟨by decide, by decide⟩,
   c2_open_closed_policy "estimatedhours" ["closed"] 0 3 2 c2ticket [] []
     ⟨"status", 2 * usPerDay, "new", "closed"⟩ rfl (by simp) (by simp)
     (by decide) rfl (by decide) (by decide) (by decide) (by decide)⟩

/-- C4: same-day last-write-wins.  Appending a chronologically later
change row to a log overwrites that day's entry in the per-day history
map (for the tracked field when its new value casts, and for status),
and leaves every other day's entry untouched. -/
theorem c4_same_day_last_write_wins (field : String)
    (hfs : field ≠ "status") (rows : List ChangeRow) (r : ChangeRow)
    (_hord : ∀ p ∈ rows, p.time ≤ r.time) :
    (∀ v, r.field = field → castEstimate (some r.newvalue) = some v →
      lookupA (dayOfTime r.time)
        (buildHistories field (rows ++ [r])).estimateHistory = some v) ∧
    (r.field = "status" →
      lookupA (dayOfTime r.time)
        (buildHistories field (rows ++ [r])).statusHistory =
          some r.newvalue) ∧
    (∀ d, d ≠ dayOfTime r.time →
      lookupA d (buildHistories field (rows ++ [r])).estimateHistory =
        lookupA d (buildHistories field rows).estimateHistory ∧
      lookupA d (buildHistories field (rows ++ [r])).statusHistory =
        lookupA d (buildHistories field rows).statusHistory) := by
  have happ : buildHistories field (rows ++ [r]) =
      buildStep field (buildHistories field rows) r := by
    rw [buildHistories, buildHistories, List.foldl_append, List.foldl_cons,
      List.foldl_nil]
  refine ⟨?_, ?_, ?_⟩
  · intro v hrf hcast
    rw [happ]
    simp only [buildStep, if_pos hrf, hcast]
    exact lookupA_insertA_self _ _ _
  · intro hrs
    have hns : ¬ r.field = field := by
      rw [hrs]; exact fun hc => hfs hc.symm
    rw [happ]
    simp only [buildStep, if_neg hns, if_pos hrs]
    exact lookupA_insertA_self _ _ _
  · intro d hd
    rw [happ]
    have hdne : dayOfTime r.time ≠ d := fun hc => hd hc.symm
    refine ⟨?_, ?_⟩
    · by_cases hrf : r.field = field
      · cases hcast : castEstimate (some r.newvalue) with
        | none => simp only [buildStep, if_pos hrf, hcast]
        | some v =>
          simp only [buildStep, if_pos hrf, hcast]
          exact lookupA_insertA_ne _ _ _ _ hdne
      · by_cases hrs : r.field = "status"
        · simp only [buildStep, if_neg hrf, if_pos hrs]
        · simp only [buildStep, if_neg hrf, if_neg hrs]
    · by_cases hrf : r.field = field
      · simp only [buildStep, if_pos hrf]
      · by_cases hrs : r.field = "status"
        · simp only [buildStep, if_neg hrf, if_pos hrs]
          exact lookupA_insertA_ne _ _ _ _ hdne
        · simp only [buildStep, if_neg hrf, if_neg hrs]

/-- Witness for C4: a second same-day change "4" → "2" overwrites the
day-13881 entry produced by the earlier "10" → "4" change. -/
theorem c4_same_day_last_write_wins_witness :
    (("estimatedhours" : String) ≠ "status" ∧
     castEstimate (some "2") = some 2) ∧
    lookupA (dayOfTime (13881 * usPerDay + 7200000000))
      (buildHistories "estimatedhours"
        ([⟨"estimatedhours", 13881 * usPerDay + 3600000000, "10", "4"⟩] ++
          [⟨"estimatedhours", 13881 * usPerDay + 7200000000, "4",
            "2"⟩])).estimateHistory = some 2 := by
  have hcast : castEstimate (some "2") = some 2 := by
    rw [castEstimate_of_scan "2" ⟨false, 2, 0, 0, 0⟩ (by decide) (by decide)]
    norm_num [decLitVal]
  refine ⟨⟨by decide, hcast⟩, ?_⟩
  exact (c4_same_day_last_write_wins "estimatedhours" (by decide)
    [⟨"estimatedhours", 13881 * usPerDay + 3600000000, "10", "4"⟩]
    ⟨"estimatedhours", 13881 * usPerDay + 7200000000, "4", "2"⟩
    (by intro p hp; simp at hp; rw [hp]; norm_num [usPerDay])).1 2 rfl hcast

/-- C5: cast and skip semantics.  `_cast_estimate` maps `None`, the
empty string and zero-valued numerals to `Decimal 0`, and unparseable
strings to the distinguished `None`; and a change row whose new value
casts to `None` leaves the per-day estimate history untouched. -/
theorem c5_cast_and_skip :
    castEstimate none = some 0 ∧
    castEstimate (some "") = some 0 ∧
    castEstimate (some "0") = some 0 ∧
    castEstimate (some "0.00") = some 0 ∧
    castEstimate (some "abc") = none ∧
    (∀ s, s ≠ "" → scanDecimal s = none → castEstimate (some s) = none) ∧
    (∀ field st (r : ChangeRow), r.field = field →
      castEstimate (some r.newvalue) = none →
      (buildStep field st r).estimateHistory = st.estimateHistory) := by
  refine ⟨rfl, ?_, ?_, ?_, ?_, ?_, ?_⟩
  · norm_num [castEstimate]
  · rw [castEstimate_of_scan "0" ⟨false, 0, 0, 0, 0⟩ (by decide) (by decide)]
    norm_num [decLitVal]
  · rw [castEstimate_of_scan "0.00" ⟨false, 0, 0, 2, 0⟩ (by decide)
      (by decide)]
    norm_num [decLitVal]
  · exact castEstimate_of_scan_none "abc" (by decide) (by decide)
  · exact fun s hne hscan => castEstimate_of_scan_none s hscan hne
  · intro field st r hrf hcast
    simp only [buildStep, if_pos hrf, hcast]

/-- Witness for C5: the unparseable change value "xyz" is skipped and
the carried history entry `(3, 7)` survives. -/
theorem c5_cast_and_skip_witness :
    (("xyz" : String) ≠ "" ∧ scanDecimal "xyz" = none ∧
      castEstimate (some "xyz") = none) ∧
    (buildStep "estimatedhours" ⟨[(3, 7)], [], none, none⟩
      ⟨"estimatedhours", 0, "2", "xyz"⟩).estimateHistory = [(3, 7)] := by
  have hcast : castEstimate (some "xyz") = none :=
    c5_cast_and_skip.2.2.2.2.2.1 "xyz" (by decide) (by decide)
  exact ⟨⟨by decide, by decide, hcast⟩,
    c5_cast_and_skip.2.2.2.2.2.2 "estimatedhours"
      ⟨[(3, 7)], [], none, none⟩ ⟨"estimatedhours", 0, "2", "xyz"⟩ rfl hcast⟩

/-- C10: WorkloadChart exclusion.  A ticket whose status is closed, or
whose remaining-field value does not parse as a float, contributes
nothing to the total remaining sum or to the per-owner sums. -/
theorem c10_workload_exclusion (closed : List String) (t : WTicket)
    (l1 l2 : List WTicket)
    (h : t.status ∈ closed ∨ parseFloatVal t.value = none) :
    workloadSums closed (l1 ++ t :: l2) = workloadSums closed (l1 ++ l2) := by
  have hstep : ∀ acc, workloadStep closed acc t = acc := by
    intro acc
    rcases h with h | h
    · rw [workloadStep, if_pos h]
    · by_cases hs : t.status ∈ closed
      · rw [workloadStep, if_pos hs]
      · rw [workloadStep, if_neg hs, h]
  rw [workloadSums, workloadSums, List.foldl_append, List.foldl_append,
    List.foldl_cons, hstep]

/-- Witness for C10: a closed ticket and an unparseable one leave the
sums of an open ticket list unchanged. -/
theorem c10_workload_exclusion_witness :
    (("closed" : String) ∈ ["closed"] ∧
      parseFloatVal (some "n/a") = none) ∧
    workloadSums ["closed"]
      ([⟨"new", "alice", some "5"⟩] ++ ⟨"closed", "bob", some "9"⟩ ::
        [⟨"new", "carol", some "2"⟩]) =
      workloadSums ["closed"]
        ([⟨"new", "alice", some "5"⟩] ++ [⟨"new", "carol", some "2"⟩]) ∧
    workloadSums ["closed"]
      ([] ++ (⟨"new", "dave", some "n/a"⟩ : WTicket) :: []) =
      workloadSums ["closed"] ([] ++ []) := by
  have hna : parseFloatVal (some "n/a") = none := by
    rw [parseFloatVal, parseDecimal, show scanDecimal "n/a" = none from by
      decide]
    rfl
  refine ⟨⟨by decide, hna⟩, ?_, ?_⟩
  · exact c10_workload_exclusion ["closed"] ⟨"closed", "bob", some "9"⟩
      [⟨"new", "alice", some "5"⟩] [⟨"new", "carol", some "2"⟩]
      (Or.inl (by decide))
  · exact c10_workload_exclusion ["closed"] ⟨"new", "dave", some "n/a"⟩
      [] [] (Or.inr hna)

/-- In a strictly sorted date list the days not after `today` form a
prefix: filtering splits the list. -/
lemma sorted_filter_split (today : Nat) :
    ∀ l : List Nat, l.Sorted (· < ·) →
      l.filter (fun d => decide (d ≤ today)) ++
        l.filter (fun d => decide (today < d)) = l
  | [], _ => rfl
  | a :: rest, hs => by
    obtain ⟨ha, hrest⟩ := List.sorted_cons.mp hs
    rw [List.filter_cons, List.filter_cons]
    by_cases hat : a ≤ today
    · rw [if_pos (decide_eq_true hat),
        if_neg (fun hc => absurd (of_decide_eq_true hc) (by omega))]
      rw [List.cons_append, sorted_filter_split today rest hrest]
    · rw [if_neg (fun hc => absurd (of_decide_eq_true hc) hat),
        if_pos (decide_eq_true (by omega : today < a))]
      rw [List.filter_eq_nil_iff.mpr (fun b hb => by
          simp only [decide_eq_true_eq]
          have := ha b hb
          omega),
        List.filter_eq_self.mpr (fun b hb => by
          simp only [decide_eq_true_eq]
          have := ha b hb
          omega)]
      rfl

/-- C8: future masking.  On a timetable with strictly increasing keys
that is not the single-entry one (on which `_scale_data` raises before
reaching the masking step), the call succeeds and returns exactly the
rounded percentage-of-peak values for the days not after `today`,
followed by one sentinel `-1` for each day strictly after `today` — no
other day is masked. -/
theorem c8_future_masking (tt : List (Nat × ℚ)) (today : Nat)
    (expected : Int) (hsort : (tt.map Prod.fst).Sorted (· < ·))
    (hne1 : tt.length ≠ 1) :
    ∃ res, scaleData tt today expected = some res ∧
      res.ydata =
        ((tt.map Prod.fst).filter (fun d => decide (d ≤ today))).map
          (fun d => roundHalfUp2 (((lookupA d tt).getD 0) * 100 /
            res.maxhours)) ++
        List.replicate
          (((tt.map Prod.fst).filter (fun d => decide (today < d))).length)
          (-1 : ℚ) := by
  have hle : (tt.map Prod.fst).Sorted (· ≤ ·) := hsort.imp le_of_lt
  have hins : List.insertionSort (· ≤ ·) (tt.map Prod.fst) =
      tt.map Prod.fst :=
    List.Sorted.insertionSort_eq hle
  have hsplit := sorted_filter_split today (tt.map Prod.fst) hsort
  simp only [scaleData, hins]
  rw [if_neg (by rw [List.length_map]; exact hne1)]
  refine ⟨_, rfl, ?_⟩
  dsimp only
  generalize hA : (tt.map Prod.fst).filter (fun d => decide (d ≤ today)) = A
  generalize hB : (tt.map Prod.fst).filter (fun d => decide (today < d)) = B
  rw [hA, hB] at hsplit
  by_cases hn : B.length = 0
  · rw [if_neg (fun hc => hc hn), hn, List.replicate_zero, List.append_nil]
    have hBnil := List.length_eq_zero.mp hn
    rw [hBnil, List.append_nil] at hsplit
    rw [← hsplit]
  · rw [if_pos hn, ← hsplit, List.map_append, List.length_append,
      List.length_map, List.length_map, Nat.add_sub_cancel,
      List.take_left' (by rw [List.length_map])]

/-- Witness for C8: a five-day timetable with `today` on day 1 masks
exactly the last three y values. -/
theorem c8_future_masking_witness :
    (([((0:Nat), (5:ℚ)), (1, 5), (2, 5), (3, 5), (4, 5)].map
        Prod.fst).Sorted (· < ·)) ∧
    ([((0:Nat), (5:ℚ)), (1, 5), (2, 5), (3, 5), (4, 5)].length ≠ 1) ∧
    (∃ res, scaleData [(0, 5), (1, 5), (2, 5), (3, 5), (4, 5)] 1 0 =
        some res ∧
      res.ydata =
        (([((0:Nat), (5:ℚ)), (1, 5), (2, 5), (3, 5), (4, 5)].map
            Prod.fst).filter (fun d => decide (d ≤ 1))).map
          (fun d => roundHalfUp2
            (((lookupA d [((0:Nat), (5:ℚ)), (1, 5), (2, 5), (3, 5),
                (4, 5)]).getD 0) * 100 / res.maxhours)) ++
        List.replicate
          ((([((0:Nat), (5:ℚ)), (1, 5), (2, 5), (3, 5), (4, 5)].map
              Prod.fst).filter (fun d => decide (1 < d))).length)
          (-1 : ℚ)) :=
  ⟨by decide, by decide,
   c8_future_masking [(0, 5), (1, 5), (2, 5), (3, 5), (4, 5)] 1 0
     (by decide) (by decide)⟩

lemma foldl_max_all_eq (v : ℚ) :
    ∀ (l : List ℚ) (e : ℚ), (∀ q ∈ l, q = v) → l ≠ [] →
      l.foldl max e = max e v
  | [], _, _, h => absurd rfl h
  | q :: rest, e, hall, _ => by
    have hq : q = v := hall q (List.mem_cons_self q rest)
    rw [List.foldl_cons, hq]
    cases rest with
    | nil => rfl
    | cons b bs =>
      rw [foldl_max_all_eq v (b :: bs) (max e v)
        (fun p hp => hall p (List.mem_cons_of_mem q hp)) (by simp)]
      rw [max_assoc, max_self]

lemma lookupA_all_eq (v : ℚ) :
    ∀ (tt : List (Nat × ℚ)) (d : Nat), (∀ p ∈ tt, p.2 = v) →
      d ∈ tt.map Prod.fst → lookupA d tt = some v
  | [], d, _, hmem => by simp at hmem
  | (k, w) :: rest, d, hall, hmem => by
    by_cases hk : k = d
    · have hw : w = v := hall (k, w) (List.mem_cons_self _ _)
      rw [lookupA, if_pos hk, hw]
    · rw [lookupA, if_neg hk]
      refine lookupA_all_eq v rest d
        (fun p hp => hall p (List.mem_cons_of_mem _ hp)) ?_
      simp only [List.map_cons, List.mem_cons] at hmem
      rcases hmem with h | h
      · exact absurd h.symm hk
      · exact h

lemma roundHalfUp2_hundred : roundHalfUp2 100 = 100 := by
  rw [roundHalfUp2, if_neg (by norm_num)]
  norm_num

/-- C7 (amended): `_scale_data` on a timetable of at least two days
whose values all equal a positive `v`, with `expected ≤ v` and no
window day after `today`, succeeds and yields `maxhours = v` and all y
coordinates `100.00`.  (On a single-day timetable the call raises
instead of yielding anything.) -/
theorem c7_scaling_round_trip_amended (tt : List (Nat × ℚ)) (today : Nat)
    (expected : Int) (v : ℚ) (hlen2 : 2 ≤ tt.length)
    (hv : ∀ p ∈ tt, p.2 = v) (hpos : 0 < v)
    (hexp : (expected : ℚ) ≤ v) (htoday : ∀ p ∈ tt, p.1 ≤ today) :
    ∃ res, scaleData tt today expected = some res ∧
      res.maxhours = v ∧
      res.ydata = List.replicate tt.length (100 : ℚ) := by
  have hne : tt ≠ [] := by
    intro hc
    rw [hc] at hlen2
    simp at hlen2
  have hvals : ∀ q ∈ tt.map Prod.snd, q = v := by
    intro q hq
    obtain ⟨p, hp, rfl⟩ := List.mem_map.mp hq
    exact hv p hp
  have hmapne : tt.map Prod.snd ≠ [] := by
    intro hc
    exact hne (List.map_eq_nil_iff.mp hc)
  have hM : (if (tt.map Prod.snd).foldl max ((expected : ℚ)) ≤ 0 then (100:ℚ)
      else (tt.map Prod.snd).foldl max ((expected : ℚ))) = v := by
    rw [foldl_max_all_eq v (tt.map Prod.snd) _ hvals hmapne,
      max_eq_right hexp, if_neg (not_le.mpr hpos)]
  have hmem : ∀ d ∈ List.insertionSort (· ≤ ·) (tt.map Prod.fst),
      d ∈ tt.map Prod.fst :=
    fun d hd => (List.perm_insertionSort _ _).mem_iff.mp hd
  have hdm : ∀ d ∈ List.insertionSort (· ≤ ·) (tt.map Prod.fst),
      d ≤ today := by
    intro d hd
    obtain ⟨p, hp, rfl⟩ := List.mem_map.mp (hmem d hd)
    exact htoday p hp
  have hfilter : (List.insertionSort (· ≤ ·) (tt.map Prod.fst)).filter
      (fun d => decide (today < d)) = [] :=
    List.filter_eq_nil_iff.mpr (fun d hd => by
      simp only [decide_eq_true_eq]
      have := hdm d hd
      omega)
  have hlen : (List.insertionSort (· ≤ ·) (tt.map Prod.fst)).length =
      tt.length := by
    rw [(List.perm_insertionSort _ _).length_eq, List.length_map]
  simp only [scaleData, hM, hfilter, List.length_nil]
  rw [if_neg (by rw [hlen]; omega)]
  rw [if_neg (by simp)]
  refine ⟨_, rfl, rfl, ?_⟩
  dsimp only
  rw [List.eq_replicate_iff]
  refine ⟨by rw [List.length_map, hlen], ?_⟩
  intro b hb
  obtain ⟨d, hd, rfl⟩ := List.mem_map.mp hb
  rw [lookupA_all_eq v tt d hv (hmem d hd), Option.getD_some,
    mul_comm, mul_div_assoc, div_self (ne_of_gt hpos), mul_one,
    roundHalfUp2_hundred]

/-- Counterexample to C7 as stated: four all-equal-value timetables on
which the claim fails — shared value 0 on two days (the ≤ 0 fallback
makes `maxhours` 100, y = 0), a day after `today` (masked to -1, not
100.00), an `expected` above the shared value (the peak is `expected`),
and a single-day timetable, on which `_scale_data` raises instead of
yielding a peak and y values at all. -/
theorem c7_scaling_round_trip_counterexample :
    ((scaleData [(0, 0), (1, 0)] 1 0).map ScaleResult.maxhours =
        some 100 ∧ (100 : ℚ) ≠ 0 ∧
      (scaleData [(0, 0), (1, 0)] 1 0).map ScaleResult.ydata =
        some [0, 0] ∧ (0 : ℚ) ≠ 100) ∧
    ((scaleData [(0, 5), (1, 5)] 0 0).map ScaleResult.ydata =
        some [100, -1] ∧ (-1 : ℚ) ≠ 100) ∧
    ((scaleData [(0, 5), (1, 5)] 1 7).map ScaleResult.maxhours =
        some 7 ∧ (7 : ℚ) ≠ 5) ∧
    scaleData [(0, 5)] 0 0 = none := by
  refine ⟨⟨?_, by norm_num, ?_, by norm_num⟩, ⟨?_, by norm_num⟩,
    ⟨?_, by norm_num⟩, ?_⟩
  · norm_num [scaleData, List.insertionSort, List.orderedInsert]
  · norm_num [scaleData, List.insertionSort, List.orderedInsert,
      lookupA, roundHalfUp2, List.filter]
  · norm_num [scaleData, List.insertionSort, List.orderedInsert,
      lookupA, roundHalfUp2, List.filter, List.replicate]
  · norm_num [scaleData, List.insertionSort, List.orderedInsert,
      lookupA, roundHalfUp2, List.filter, List.replicate]
  · norm_num [scaleData, List.insertionSort, List.orderedInsert]

/-- Witness for the amended C7: a three-day all-5 timetable with
`today` past the window end scales to peak 5 and all-100 y values. -/
theorem c7_scaling_round_trip_amended_witness :
    ((0 : ℚ) < 5 ∧ ((0 : Int) : ℚ) ≤ 5 ∧
      2 ≤ [((0:Nat), (5:ℚ)), (1, 5), (2, 5)].length) ∧
    (∃ res, scaleData [(0, 5), (1, 5), (2, 5)] 9 0 = some res ∧
      res.maxhours = 5 ∧
      res.ydata = List.replicate ([((0:Nat), (5:ℚ)), (1, 5), (2, 5)].length)
        (100 : ℚ)) :=
  ⟨⟨by norm_num, by norm_num, by decide⟩,
   c7_scaling_round_trip_amended [(0, 5), (1, 5), (2, 5)] 9 0 5
     (by decide) (by intro p hp; fin_cases hp <;> rfl) (by norm_num)
     (by norm_num) (by intro p hp; fin_cases hp <;> norm_num)⟩
